import Mathlib

/-!
Verification of the misk_ECS core (entity-component-system store and
system dispatcher) against its specification.

The development shallowly embeds the Rust sources:
* `src/ecs/src/lib.rs`    — `EcsError`, `TypedComponentStorage`, `EntityId`;
* `src/ecs/src/entity.rs` — `Entity` (a slotmap key: slot index + generation);
* `src/ecs/src/world.rs`  — `World` and all its operations;
* `src/ecs/src/system.rs` — `SystemDispatcher::run_systems`;
* `src/simulator/src/systems/mod.rs` — `MovementSystem`, `DebugSystem`.

Rust `HashMap`s are embedded as association lists (first-match lookup,
in-place replacement on insert), the `slotmap::SlotMap` entity allocator as a
list of generation-counted slots with a free list, and `f32` scalars as
rationals.  Type-erased component storages (`Box<dyn ComponentStorage>`)
are embedded as storages carrying the `TypeId` of their element type, with
`downcast` succeeding exactly when the requested tag matches.
-/

set_option maxHeartbeats 1000000

/-- List indexing, `l.get? i` written out explicitly. -/
def nth {α : Type _} : List α → Nat → Option α
  | [], _ => none
  | a :: _, 0 => some a
  | _ :: l, n + 1 => nth l n

/-- Replace the element at an index, leaving the list unchanged when out of range. -/
def setNth {α : Type _} : List α → Nat → α → List α
  | [], _, _ => []
  | _ :: l, 0, b => b :: l
  | a :: l, n + 1, b => a :: setNth l n b

section AList

variable {κ : Type _} {β : Type _} [DecidableEq κ]

/-- Association-list lookup: embeds `HashMap::get`. -/
def alookup : List (κ × β) → κ → Option β
  | [], _ => none
  | (k, v) :: rest, k' => if k = k' then some v else alookup rest k'

/-- Association-list insert-or-replace: embeds `HashMap::insert`. -/
def ainsert : List (κ × β) → κ → β → List (κ × β)
  | [], k, v => [(k, v)]
  | (k', v') :: rest, k, v =>
      if k' = k then (k, v) :: rest else (k', v') :: ainsert rest k v

/-- Association-list removal: embeds `HashMap::remove` (on the state). -/
def aerase : List (κ × β) → κ → List (κ × β)
  | [], _ => []
  | (k', v') :: rest, k => if k' = k then rest else (k', v') :: aerase rest k

/-- The keys of an association list are pairwise distinct. -/
def keysNodup (l : List (κ × β)) : Prop := (l.map Prod.fst).Nodup

end AList

/-- Embeds `EntityId = slotmap::DefaultKey` (and `Entity`, which merely wraps
it): a slot index together with a generation counter. -/
structure Key where
  idx : Nat
  gen : Nat
deriving DecidableEq, Repr

/-- One slot of a slotmap: its current generation and its occupant, if any. -/
structure Slot (α : Type _) where
  gen : Nat
  val : Option α
deriving Repr

/-- Embeds `slotmap::SlotMap`: versioned slots plus a free list of vacant
slot indices.  The generation of a slot is bumped when its occupant is
removed, so a key from an earlier lifetime of the slot never matches again. -/
structure SlotMap (α : Type _) where
  slots : List (Slot α)
  freeList : List Nat

namespace SlotMap

variable {α : Type _}

/-- `SlotMap::new()`. -/
def empty : SlotMap α := ⟨[], []⟩

/-- `SlotMap::contains_key`: the slot exists, its generation matches the
key's, and it is occupied. -/
def containsKey (sm : SlotMap α) (k : Key) : Bool :=
  match nth sm.slots k.idx with
  | some s => s.gen == k.gen && s.val.isSome
  | none => false

/-- `SlotMap::insert_with_key`: reuse the head of the free list if possible,
otherwise append a fresh slot; the new key pairs the slot index with the
slot's current generation. -/
def insertWithKey (sm : SlotMap α) (f : Key → α) : Key × SlotMap α :=
  match sm.freeList with
  | [] =>
      let k : Key := ⟨sm.slots.length, 0⟩
      (k, ⟨sm.slots ++ [⟨0, some (f k)⟩], []⟩)
  | i :: rest =>
      match nth sm.slots i with
      | some s =>
          let k : Key := ⟨i, s.gen⟩
          (k, ⟨setNth sm.slots i ⟨s.gen, some (f k)⟩, rest⟩)
      | none => (⟨i, 0⟩, ⟨sm.slots, rest⟩)

/-- `SlotMap::remove`: on a hit, vacate the slot, bump its generation and
push the index on the free list; on a miss, change nothing. -/
def removeKey (sm : SlotMap α) (k : Key) : Option α × SlotMap α :=
  match nth sm.slots k.idx with
  | some s =>
      if s.gen == k.gen && s.val.isSome then
        (s.val, ⟨setNth sm.slots k.idx ⟨s.gen + 1, none⟩, k.idx :: sm.freeList⟩)
      else (none, sm)
  | none => (none, sm)

/-- `SlotMap::values`: the occupants of the occupied slots. -/
def values (sm : SlotMap α) : List α :=
  sm.slots.filterMap Slot.val

/-- `SlotMap::len`. -/
def size (sm : SlotMap α) : Nat :=
  sm.values.length

end SlotMap

/-- Embeds `std::any::TypeId`: an opaque per-type tag. -/
abbrev CompTypeId := Nat

/-- Embeds `Component::type_name` (only used inside error payloads). -/
def compTypeName (t : CompTypeId) : String := toString t

/-- Embeds `EcsError` from `src/ecs/src/lib.rs`. -/
inductive EcsError where
  | entityNotFound (e : Key)
  | componentNotRegistered (tyName : String)
  | systemError (msg : String)
deriving DecidableEq, Repr

/-- Embeds `TypedComponentStorage<T>` behind its `Box<dyn ComponentStorage>`
erasure: the entity-to-value map, tagged with the `TypeId` of the concrete
element type the box was created for. -/
structure TypedStorage (α : Type _) where
  ty : CompTypeId
  entries : List (Key × α)

/-- Embeds `downcast_ref`/`downcast_mut` to `TypedComponentStorage<T>`:
succeeds exactly when the storage's concrete element type is `t`. -/
def downcast {α : Type _} (t : CompTypeId) (s : TypedStorage α) : Option (TypedStorage α) :=
  if s.ty = t then some s else none

/-- Embeds `World` from `src/ecs/src/world.rs`: the slotmap of entities
(each storing its own handle), the type-erased component storages keyed by
`TypeId`, and the per-entity membership masks. -/
structure World (α : Type _) where
  entities : SlotMap Key
  componentStorages : List (CompTypeId × TypedStorage α)
  entityComponentMasks : List (Key × List CompTypeId)

namespace World

variable {α : Type _}

/-- `World::new`. -/
def new : World α := ⟨SlotMap.empty, [], []⟩

end World

section WorldOps

variable {α : Type _}

/-- `World::create_entity`: insert the entity (whose stored value is its own
handle) and give it an empty component mask. -/
def createEntity (w : World α) : Key × World α :=
  let p := w.entities.insertWithKey (fun id => id)
  (p.1, { w with
            entities := p.2,
            entityComponentMasks := ainsert w.entityComponentMasks p.1 [] })

/-- `World::entity_exists`. -/
def entityExists (w : World α) (e : Key) : Bool :=
  w.entities.containsKey e

/-- `World::remove_entity`: fail if the entity is not live; otherwise purge
its entry from every component storage, free its slot, and drop its mask.
The world is threaded through explicitly (`&mut self`), so the state is
returned alongside the result. -/
def removeEntity (w : World α) (e : Key) : Except EcsError Unit × World α :=
  if !w.entities.containsKey e then (.error (.entityNotFound e), w)
  else
    (.ok (),
      { entities := (w.entities.removeKey e).2,
        componentStorages := w.componentStorages.map
          (fun p => (p.1, ⟨p.2.ty, aerase p.2.entries e⟩)),
        entityComponentMasks := aerase w.entityComponentMasks e })

/-- `World::register_component::<T>`: create an empty typed storage for the
tag unless one is already present. -/
def registerComponent (t : CompTypeId) (w : World α) : World α :=
  if (alookup w.componentStorages t).isSome then w
  else { w with componentStorages := ainsert w.componentStorages t ⟨t, []⟩ }

/-- `World::add_component::<T>`: fail if the entity is not live; otherwise
auto-register the type, look its storage up, downcast, insert the value and
add the tag to the entity's mask if absent.  Both lookup and downcast have
`ComponentNotRegistered` error branches, mirrored faithfully. -/
def addComponent (t : CompTypeId) (e : Key) (v : α) (w : World α) :
    Except EcsError Unit × World α :=
  if !w.entities.containsKey e then (.error (.entityNotFound e), w)
  else
    let w1 := registerComponent t w
    match alookup w1.componentStorages t with
    | none => (.error (.componentNotRegistered (compTypeName t)), w1)
    | some s0 =>
      match downcast t s0 with
      | none => (.error (.componentNotRegistered (compTypeName t)), w1)
      | some s =>
        let storages := ainsert w1.componentStorages t
          ⟨s.ty, ainsert s.entries e v⟩
        let masks :=
          match alookup w1.entityComponentMasks e with
          | some mask =>
              if mask.contains t then w1.entityComponentMasks
              else ainsert w1.entityComponentMasks e (mask ++ [t])
          | none => w1.entityComponentMasks
        (.ok (), { w1 with
                     componentStorages := storages,
                     entityComponentMasks := masks })

/-- `World::get_component::<T>`: storage lookup, downcast and entry lookup,
each `?`-propagating absence as `none`. -/
def getComponent (t : CompTypeId) (e : Key) (w : World α) : Option α :=
  match alookup w.componentStorages t with
  | none => none
  | some s0 =>
    match downcast t s0 with
    | none => none
    | some s => alookup s.entries e

/-- `World::get_component_mut::<T>`: the same lookup chain as
`get_component`, through the mutable accessors. -/
def getComponentMut (t : CompTypeId) (e : Key) (w : World α) : Option α :=
  match alookup w.componentStorages t with
  | none => none
  | some s0 =>
    match downcast t s0 with
    | none => none
    | some s => alookup s.entries e

/-- Mutation through the `&mut T` handed out by `get_component_mut`:
overwrite the entity's entry in the typed storage for that tag. -/
def writeComponent (t : CompTypeId) (e : Key) (v : α) (w : World α) : World α :=
  match alookup w.componentStorages t with
  | none => w
  | some s =>
      { w with componentStorages := ainsert w.componentStorages t
                 ⟨s.ty, ainsert s.entries e v⟩ }

/-- `World::remove_component::<T>`: fail if the entity is not live; fail
with `ComponentNotRegistered` if the storage lookup or the downcast fails;
otherwise take the entry out and drop the tag from the entity's mask. -/
def removeComponent (t : CompTypeId) (e : Key) (w : World α) :
    Except EcsError (Option α) × World α :=
  if !w.entities.containsKey e then (.error (.entityNotFound e), w)
  else
    match alookup w.componentStorages t with
    | none => (.error (.componentNotRegistered (compTypeName t)), w)
    | some s0 =>
      match downcast t s0 with
      | none => (.error (.componentNotRegistered (compTypeName t)), w)
      | some s =>
        let removed := alookup s.entries e
        let storages := ainsert w.componentStorages t
          ⟨s.ty, aerase s.entries e⟩
        let masks :=
          match alookup w.entityComponentMasks e with
          | some mask =>
              ainsert w.entityComponentMasks e (mask.filter (fun x => x != t))
          | none => w.entityComponentMasks
        (.ok removed, { w with
                          componentStorages := storages,
                          entityComponentMasks := masks })

/-- `World::has_component::<T>`: mask lookup, defaulting to `false`. -/
def hasComponent (t : CompTypeId) (e : Key) (w : World α) : Bool :=
  ((alookup w.entityComponentMasks e).map (fun mask => mask.contains t)).getD false

/-- `World::query_entities`: keep the entities whose mask contains every
required tag. -/
def queryEntities (ts : List CompTypeId) (w : World α) : List Key :=
  (w.entityComponentMasks.filter (fun p => ts.all (fun t => p.2.contains t))).map Prod.fst

/-- `World::entities()` (the iterator, materialized): every live entity. -/
def worldEntities (w : World α) : List Key :=
  w.entities.values

/-- `World::entity_count`. -/
def entityCount (w : World α) : Nat :=
  w.entities.size

end WorldOps

/-- One public mutating `World` operation, with its arguments. -/
inductive Op (α : Type _) where
  | create
  | removeE (e : Key)
  | register (t : CompTypeId)
  | addC (t : CompTypeId) (e : Key) (v : α)
  | removeC (t : CompTypeId) (e : Key)

/-- The state transition of one operation (results discarded; errors leave
exactly the state the Rust code leaves behind its early returns). -/
def applyOp {α : Type _} (w : World α) : Op α → World α
  | .create => (createEntity w).2
  | .removeE e => (removeEntity w e).2
  | .register t => registerComponent t w
  | .addC t e v => (addComponent t e v w).2
  | .removeC t e => (removeComponent t e w).2

/-- The world reached from `w` by a sequence of mutating operations. -/
def runOpsFrom {α : Type _} (w : World α) (ops : List (Op α)) : World α :=
  ops.foldl applyOp w

/-- The world reached from `World::new()` by a sequence of mutating
operations: exactly the reachable worlds. -/
def runOps {α : Type _} (ops : List (Op α)) : World α :=
  runOpsFrom World.new ops

/-! ### Lemmas about list indexing -/

theorem nth_append_left {α : Type _} (l l' : List α) (i : Nat) (h : i < l.length) :
    nth (l ++ l') i = nth l i := by
  induction l generalizing i with
  | nil => simp at h
  | cons a l ih =>
    cases i with
    | zero => rfl
    | succ n => simpa [nth] using ih n (by simpa using Nat.lt_of_succ_lt_succ h)

theorem nth_append_self {α : Type _} (l : List α) (a : α) :
    nth (l ++ [a]) l.length = some a := by
  induction l with
  | nil => rfl
  | cons b l ih => simpa [nth] using ih

theorem length_setNth {α : Type _} (l : List α) (i : Nat) (b : α) :
    (setNth l i b).length = l.length := by
  induction l generalizing i with
  | nil => rfl
  | cons a l ih =>
    cases i with
    | zero => rfl
    | succ n => simpa [setNth] using ih n

theorem nth_setNth_self {α : Type _} (l : List α) (i : Nat) (b : α) :
    nth (setNth l i b) i = (nth l i).map (fun _ => b) := by
  induction l generalizing i with
  | nil => rfl
  | cons a l ih =>
    cases i with
    | zero => rfl
    | succ n => simpa [setNth, nth] using ih n

theorem nth_setNth_ne {α : Type _} (l : List α) (i j : Nat) (b : α) (h : i ≠ j) :
    nth (setNth l i b) j = nth l j := by
  induction l generalizing i j with
  | nil => rfl
  | cons a l ih =>
    cases i with
    | zero =>
      cases j with
      | zero => exact absurd rfl h
      | succ m => rfl
    | succ n =>
      cases j with
      | zero => rfl
      | succ m => simpa [setNth, nth] using ih n m (fun hnm => h (by rw [hnm]))

theorem nth_eq_none_of_le {α : Type _} (l : List α) (i : Nat) (h : l.length ≤ i) :
    nth l i = none := by
  induction l generalizing i with
  | nil => rfl
  | cons a l ih =>
    cases i with
    | zero => simp at h
    | succ n => simpa [nth] using ih n (Nat.le_of_succ_le_succ h)

theorem lt_of_nth_eq_some {α : Type _} (l : List α) (i : Nat) (a : α)
    (h : nth l i = some a) : i < l.length := by
  by_contra hge
  rw [nth_eq_none_of_le l i (Nat.le_of_not_lt hge)] at h
  exact Option.noConfusion h

theorem mem_of_nth_eq_some {α : Type _} (l : List α) (i : Nat) (a : α)
    (h : nth l i = some a) : a ∈ l := by
  induction l generalizing i with
  | nil => exact Option.noConfusion h
  | cons b l ih =>
    cases i with
    | zero => simp [nth] at h; simp [h]
    | succ n => exact List.mem_cons_of_mem _ (ih n h)

theorem mem_iff_nth {α : Type _} (l : List α) (a : α) :
    a ∈ l ↔ ∃ i, nth l i = some a := by
  constructor
  · intro h
    induction l with
    | nil => simp at h
    | cons b l ih =>
      rcases List.mem_cons.mp h with h | h
      · exact ⟨0, by simp [nth, h]⟩
      · rcases ih h with ⟨i, hi⟩
        exact ⟨i + 1, hi⟩
  · rintro ⟨i, hi⟩
    exact mem_of_nth_eq_some l i a hi

/-! ### Lemmas about association lists -/

section AListLemmas

variable {κ : Type _} {β : Type _} [DecidableEq κ]

theorem alookup_ainsert_self (l : List (κ × β)) (k : κ) (v : β) :
    alookup (ainsert l k v) k = some v := by
  induction l with
  | nil => simp [ainsert, alookup]
  | cons p l ih =>
    by_cases h : p.1 = k
    · simp [ainsert, h, alookup]
    · simp [ainsert, h, alookup, ih]

theorem alookup_ainsert_ne (l : List (κ × β)) (k k' : κ) (v : β) (h : k' ≠ k) :
    alookup (ainsert l k v) k' = alookup l k' := by
  have hk : ¬ k = k' := fun hh => h hh.symm
  induction l with
  | nil => simp [ainsert, alookup, hk]
  | cons p l ih =>
    by_cases hp : p.1 = k
    · have hp' : ¬ p.1 = k' := by rw [hp]; exact hk
      simp [ainsert, hp, alookup, hk, hp']
    · by_cases hp' : p.1 = k'
      · simp [ainsert, hp, alookup, hp', h]
      · simp [ainsert, hp, alookup, hp', ih]

theorem alookup_aerase_ne (l : List (κ × β)) (k k' : κ) (h : k' ≠ k) :
    alookup (aerase l k) k' = alookup l k' := by
  have hk : ¬ k = k' := fun hh => h hh.symm
  induction l with
  | nil => rfl
  | cons p l ih =>
    by_cases hp : p.1 = k
    · simp [aerase, hp, alookup, hk]
    · by_cases hp' : p.1 = k'
      · simp [aerase, hp, alookup, hp', h]
      · simp [aerase, hp, alookup, hp', ih]

theorem alookup_eq_some_mem (l : List (κ × β)) (k : κ) (v : β)
    (h : alookup l k = some v) : (k, v) ∈ l := by
  induction l with
  | nil => exact Option.noConfusion h
  | cons p l ih =>
    obtain ⟨a, b⟩ := p
    by_cases hp : a = k
    · subst hp
      simp [alookup] at h
      subst h
      exact List.mem_cons_self _ _
    · simp only [alookup, if_neg hp] at h
      exact List.mem_cons_of_mem _ (ih h)

theorem alookup_isSome_iff (l : List (κ × β)) (k : κ) :
    (alookup l k).isSome = true ↔ k ∈ l.map Prod.fst := by
  induction l with
  | nil => simp [alookup]
  | cons p l ih =>
    obtain ⟨a, b⟩ := p
    by_cases hp : a = k
    · subst hp
      simp [alookup]
    · rw [List.map_cons, List.mem_cons]
      constructor
      · intro h
        exact Or.inr (ih.mp (by simpa [alookup, hp] using h))
      · intro h
        rcases h with h | h
        · exact absurd h.symm hp
        · simpa [alookup, hp] using ih.mpr h

theorem alookup_eq_none_iff (l : List (κ × β)) (k : κ) :
    alookup l k = none ↔ k ∉ l.map Prod.fst := by
  rw [← alookup_isSome_iff l k]
  cases alookup l k <;> simp

theorem mem_ainsert (l : List (κ × β)) (k : κ) (v : β) (p : κ × β)
    (h : p ∈ ainsert l k v) : p = (k, v) ∨ p ∈ l := by
  induction l with
  | nil => simp [ainsert] at h; simp [h]
  | cons q l ih =>
    by_cases hq : q.1 = k
    · simp only [ainsert, if_pos hq, List.mem_cons] at h
      rcases h with h | h
      · exact Or.inl h
      · exact Or.inr (List.mem_cons_of_mem _ h)
    · simp only [ainsert, if_neg hq, List.mem_cons] at h
      rcases h with h | h
      · exact Or.inr (by simp [h])
      · rcases ih h with h | h
        · exact Or.inl h
        · exact Or.inr (List.mem_cons_of_mem _ h)

theorem aerase_sublist (l : List (κ × β)) (k : κ) :
    (aerase l k).Sublist l := by
  induction l with
  | nil => simp [aerase]
  | cons q l ih =>
    by_cases hq : q.1 = k
    · rw [show aerase ((q.1, q.2) :: l) k = l by simp [aerase, hq]]
      exact List.sublist_cons_self q l
    · simpa [aerase, hq] using List.Sublist.cons₂ q ih

theorem mem_aerase (l : List (κ × β)) (k : κ) (p : κ × β)
    (h : p ∈ aerase l k) : p ∈ l :=
  (aerase_sublist l k).mem h

theorem keys_ainsert_of_mem (l : List (κ × β)) (k : κ) (v : β)
    (h : k ∈ l.map Prod.fst) :
    (ainsert l k v).map Prod.fst = l.map Prod.fst := by
  induction l with
  | nil => simp at h
  | cons q l ih =>
    by_cases hq : q.1 = k
    · simp [ainsert, hq]
    · rw [List.map_cons] at h
      rcases List.mem_cons.mp h with h | h
      · exact absurd h.symm hq
      · simp [ainsert, hq, ih h]

theorem keys_ainsert_of_not_mem (l : List (κ × β)) (k : κ) (v : β)
    (h : k ∉ l.map Prod.fst) :
    (ainsert l k v).map Prod.fst = l.map Prod.fst ++ [k] := by
  induction l with
  | nil => simp [ainsert]
  | cons q l ih =>
    rw [List.map_cons, List.mem_cons] at h
    push_neg at h
    have hq : ¬ q.1 = k := fun hh => h.1 hh.symm
    simp [ainsert, hq, ih h.2]

theorem keysNodup_ainsert (l : List (κ × β)) (k : κ) (v : β)
    (h : keysNodup l) : keysNodup (ainsert l k v) := by
  unfold keysNodup at h ⊢
  by_cases hk : k ∈ l.map Prod.fst
  · rw [keys_ainsert_of_mem l k v hk]
    exact h
  · rw [keys_ainsert_of_not_mem l k v hk]
    simp [List.nodup_append, h, hk]

theorem keysNodup_aerase (l : List (κ × β)) (k : κ)
    (h : keysNodup l) : keysNodup (aerase l k) := by
  unfold keysNodup at h ⊢
  exact List.Nodup.sublist (List.Sublist.map Prod.fst (aerase_sublist l k)) h

theorem alookup_aerase_self (l : List (κ × β)) (k : κ)
    (h : keysNodup l) : alookup (aerase l k) k = none := by
  induction l with
  | nil => rfl
  | cons q l ih =>
    rw [keysNodup, List.map_cons] at h
    have h' := List.nodup_cons.mp h
    by_cases hq : q.1 = k
    · simp only [aerase, if_pos hq]
      exact (alookup_eq_none_iff l k).mpr (hq ▸ h'.1)
    · simp only [aerase, if_neg hq, alookup, if_neg hq]
      exact ih h'.2

theorem alookup_map_value {γ : Type _} (l : List (κ × β)) (g : β → γ) (k : κ) :
    alookup (l.map (fun p => (p.1, g p.2))) k = (alookup l k).map g := by
  induction l with
  | nil => rfl
  | cons p l ih =>
    by_cases hp : p.1 = k
    · subst hp
      simp [alookup]
    · simp [alookup, hp, ih]

theorem mem_alookup (l : List (κ × β)) (k : κ) (v : β)
    (hnd : keysNodup l) (h : (k, v) ∈ l) : alookup l k = some v := by
  induction l with
  | nil => simp at h
  | cons q l ih =>
    rw [keysNodup, List.map_cons] at hnd
    have hnd' := List.nodup_cons.mp hnd
    rcases List.mem_cons.mp h with h | h
    · simp [← h, alookup]
    · have hk : q.1 ≠ k := by
        intro hq
        exact hnd'.1 (hq ▸ List.mem_map_of_mem Prod.fst h)
      simp [alookup, hk, ih hnd'.2 h]

end AListLemmas

/-! ### SlotMap invariants and lemmas -/

theorem Key.ext2 {a b : Key} (h1 : a.idx = b.idx) (h2 : a.gen = b.gen) : a = b := by
  cases a
  cases b
  simp_all

namespace SlotMap

variable {α : Type _}

/-- Structural invariant of a slotmap: the free list holds pairwise distinct
indices of existing, vacant slots. -/
def Inv (sm : SlotMap α) : Prop :=
  sm.freeList.Nodup ∧
  ∀ i ∈ sm.freeList, ∃ s, nth sm.slots i = some s ∧ s.val = none

theorem inv_empty : (empty : SlotMap α).Inv :=
  ⟨List.nodup_nil, by simp [empty]⟩

/-- A key is stale when its slot has since moved to a later generation. -/
def staleKey (sm : SlotMap α) (k : Key) : Prop :=
  ∃ s, nth sm.slots k.idx = some s ∧ k.gen < s.gen

theorem containsKey_insert_self (sm : SlotMap α) (f : Key → α) (h : sm.Inv) :
    (sm.insertWithKey f).2.containsKey (sm.insertWithKey f).1 = true := by
  rcases hf : sm.freeList with _ | ⟨i, rest⟩
  · simp [insertWithKey, hf, containsKey, nth_append_self]
  · obtain ⟨s, hs, -⟩ := h.2 i (by rw [hf]; exact List.mem_cons_self i rest)
    simp [insertWithKey, hf, hs, containsKey, nth_setNth_self]

theorem containsKey_insert_ne (sm : SlotMap α) (f : Key → α) (k : Key)
    (h : k ≠ (sm.insertWithKey f).1) :
    (sm.insertWithKey f).2.containsKey k = sm.containsKey k := by
  rcases hf : sm.freeList with _ | ⟨i, rest⟩
  · by_cases hidx : k.idx < sm.slots.length
    · simp [insertWithKey, hf, containsKey, nth_append_left _ _ _ hidx]
    · have h1 : nth sm.slots k.idx = none :=
        nth_eq_none_of_le _ _ (Nat.le_of_not_lt hidx)
      by_cases heq : k.idx = sm.slots.length
      · have hgen : k.gen ≠ 0 := by
          intro hg
          exact h (by simp [insertWithKey, hf]; exact Key.ext2 heq hg)
        rw [heq] at h1
        simp [insertWithKey, hf, containsKey, heq, nth_append_self, h1,
          Ne.symm hgen]
      · have h2 : nth (sm.slots ++ [(⟨0, some (f ⟨sm.slots.length, 0⟩)⟩ : Slot α)]) k.idx = none := by
          apply nth_eq_none_of_le
          simp
          omega
        simp [insertWithKey, hf, containsKey, h1, h2]
  · rcases hs : nth sm.slots i with _ | s
    · simp [insertWithKey, hf, hs, containsKey]
    · by_cases hidx : k.idx = i
      · have hgen : k.gen ≠ s.gen := by
          intro hg
          exact h (by simp [insertWithKey, hf, hs]; exact Key.ext2 hidx hg)
        have hs' : nth sm.slots k.idx = some s := by rw [hidx]; exact hs
        have hset : nth (setNth sm.slots i ⟨s.gen, some (f ⟨i, s.gen⟩)⟩) k.idx
            = some ⟨s.gen, some (f ⟨i, s.gen⟩)⟩ := by
          rw [hidx, nth_setNth_self, hs]
          rfl
        simp [insertWithKey, hf, hs, containsKey, hset, hs', Ne.symm hgen]
      · simp [insertWithKey, hf, hs, containsKey,
          nth_setNth_ne _ _ _ _ (fun hh => hidx hh.symm)]

theorem inv_insert (sm : SlotMap α) (f : Key → α) (h : sm.Inv) :
    (sm.insertWithKey f).2.Inv := by
  rcases hf : sm.freeList with _ | ⟨i, rest⟩
  · constructor
    · simp [insertWithKey, hf]
    · simp [insertWithKey, hf]
  · have hnodup : (i :: rest).Nodup := hf ▸ h.1
    rcases hs : nth sm.slots i with _ | s
    · constructor
      · simp only [insertWithKey, hf, hs]
        exact (List.nodup_cons.mp hnodup).2
      · intro j hj
        have hj' : j ∈ rest := by simpa [insertWithKey, hf, hs] using hj
        have := h.2 j (by rw [hf]; exact List.mem_cons_of_mem i hj')
        simpa [insertWithKey, hf, hs] using this
    · constructor
      · simp only [insertWithKey, hf, hs]
        exact (List.nodup_cons.mp hnodup).2
      · intro j hj
        have hj' : j ∈ rest := by simpa [insertWithKey, hf, hs] using hj
        have hji : j ≠ i := fun hh => (List.nodup_cons.mp hnodup).1 (hh ▸ hj')
        obtain ⟨s', hs', hv'⟩ := h.2 j (by rw [hf]; exact List.mem_cons_of_mem i hj')
        refine ⟨s', ?_, hv'⟩
        simp only [insertWithKey, hf, hs]
        exact (nth_setNth_ne sm.slots i j _ (fun hh => hji hh.symm)).trans hs'

theorem containsKey_remove_self (sm : SlotMap α) (k : Key) :
    (sm.removeKey k).2.containsKey k = false := by
  rcases hs : nth sm.slots k.idx with _ | s
  · simp [removeKey, hs, containsKey]
  · by_cases hc : (s.gen == k.gen && s.val.isSome) = true
    · simp [removeKey, hs, hc, containsKey, nth_setNth_self]
    · simp [removeKey, hs, hc, containsKey]

theorem containsKey_remove_ne (sm : SlotMap α) (k k' : Key) (h : k' ≠ k) :
    (sm.removeKey k).2.containsKey k' = sm.containsKey k' := by
  rcases hs : nth sm.slots k.idx with _ | s
  · simp [removeKey, hs]
  · by_cases hc : (s.gen == k.gen && s.val.isSome) = true
    · have hc' := hc
      simp only [Bool.and_eq_true, beq_iff_eq] at hc'
      by_cases hidx : k'.idx = k.idx
      · have hgen : k'.gen ≠ k.gen := fun hg => h (Key.ext2 hidx hg)
        have hs' : nth sm.slots k'.idx = some s := by rw [hidx]; exact hs
        have hset : nth (setNth sm.slots k.idx ⟨s.gen + 1, none⟩) k'.idx
            = some ⟨s.gen + 1, none⟩ := by
          rw [hidx, nth_setNth_self, hs]
          rfl
        have hgen' : k'.gen ≠ s.gen := fun hg => hgen (hg.trans hc'.1)
        simp [removeKey, hs, hc, containsKey, hset, hs', Ne.symm hgen']
      · simp [removeKey, hs, hc, containsKey,
          nth_setNth_ne _ _ _ _ (fun hh => hidx hh.symm)]
    · simp [removeKey, hs, hc]

theorem inv_remove (sm : SlotMap α) (k : Key) (h : sm.Inv) :
    (sm.removeKey k).2.Inv := by
  rcases hs : nth sm.slots k.idx with _ | s
  · simpa [removeKey, hs] using h
  · by_cases hc : (s.gen == k.gen && s.val.isSome) = true
    · have hc' := hc
      simp only [Bool.and_eq_true, beq_iff_eq] at hc'
      have hnotfree : k.idx ∉ sm.freeList := by
        intro hmem
        obtain ⟨s', hs', hv'⟩ := h.2 k.idx hmem
        rw [hs] at hs'
        cases hs'
        rw [hv'] at hc'
        simp at hc'
      constructor
      · simp only [removeKey, hs, hc, if_true]
        exact List.nodup_cons.mpr ⟨hnotfree, h.1⟩
      · intro j hj
        have hj' : j = k.idx ∨ j ∈ sm.freeList := by
          simpa [removeKey, hs, hc] using hj
        rcases hj' with rfl | hj'
        · refine ⟨⟨s.gen + 1, none⟩, ?_, rfl⟩
          simp only [removeKey, hs, hc, if_true]
          rw [nth_setNth_self, hs]
          rfl
        · have hji : j ≠ k.idx := fun hh => hnotfree (hh ▸ hj')
          obtain ⟨s', hs', hv'⟩ := h.2 j hj'
          refine ⟨s', ?_, hv'⟩
          simp only [removeKey, hs, hc, if_true]
          exact (nth_setNth_ne sm.slots k.idx j _ (fun hh => hji hh.symm)).trans hs'
    · simpa [removeKey, hs, hc] using h

/-- The entity slotmap stores each live entity's own handle: the occupant of
slot `i` is exactly the key `⟨i, current generation⟩` (this is what
`insert_with_key(|id| Entity::new(id))` establishes). -/
def SelfKeys (sm : SlotMap Key) : Prop :=
  ∀ i s k, nth sm.slots i = some s → s.val = some k → k = ⟨i, s.gen⟩

theorem selfKeys_empty : SelfKeys (empty : SlotMap Key) := by
  intro i s k hnth
  cases i <;> exact Option.noConfusion hnth

theorem nth_eq_none_iff {β : Type _} (l : List β) (i : Nat) :
    nth l i = none ↔ l.length ≤ i := by
  induction l generalizing i with
  | nil => simp [nth]
  | cons a l ih =>
    cases i with
    | zero => simp [nth]
    | succ n => simpa [nth, Nat.succ_le_succ_iff] using ih n

theorem selfKeys_insert (sm : SlotMap Key) (h : SelfKeys sm) :
    SelfKeys (sm.insertWithKey (fun k => k)).2 := by
  intro i s k hnth hval
  rcases hf : sm.freeList with _ | ⟨j, rest⟩
  · simp only [insertWithKey, hf] at hnth
    by_cases hi : i < sm.slots.length
    · exact h i s k ((nth_append_left _ _ _ hi).symm.trans hnth) hval
    · by_cases heq : i = sm.slots.length
      · subst heq
        rw [nth_append_self] at hnth
        cases hnth
        cases hval
        rfl
      · have hlen : (sm.slots ++ [(⟨0, some (⟨sm.slots.length, 0⟩ : Key)⟩ : Slot Key)]).length ≤ i := by
          simp
          omega
        rw [nth_eq_none_of_le _ _ hlen] at hnth
        exact Option.noConfusion hnth
  · rcases hs : nth sm.slots j with _ | s0
    · simp only [insertWithKey, hf, hs] at hnth
      exact h i s k hnth hval
    · simp only [insertWithKey, hf, hs] at hnth
      by_cases hij : i = j
      · subst hij
        rw [nth_setNth_self, hs] at hnth
        cases hnth
        cases hval
        rfl
      · rw [nth_setNth_ne _ _ _ _ (fun hh => hij hh.symm)] at hnth
        exact h i s k hnth hval

theorem selfKeys_remove (sm : SlotMap Key) (k0 : Key) (h : SelfKeys sm) :
    SelfKeys (sm.removeKey k0).2 := by
  intro i s k hnth hval
  rcases hs : nth sm.slots k0.idx with _ | s0
  · simp only [removeKey, hs] at hnth
    exact h i s k hnth hval
  · by_cases hc : (s0.gen == k0.gen && s0.val.isSome) = true
    · simp only [removeKey, hs, hc, if_true] at hnth
      by_cases hij : i = k0.idx
      · subst hij
        rw [nth_setNth_self, hs] at hnth
        cases hnth
        exact Option.noConfusion hval
      · rw [nth_setNth_ne _ _ _ _ (fun hh => hij hh.symm)] at hnth
        exact h i s k hnth hval
    · simp only [removeKey, hs, hc, if_false, Bool.false_eq_true] at hnth
      exact h i s k hnth hval

theorem stale_not_contains (sm : SlotMap α) (k : Key) (h : sm.staleKey k) :
    sm.containsKey k = false := by
  obtain ⟨s, hs, hlt⟩ := h
  have hne : s.gen ≠ k.gen := by omega
  simp [containsKey, hs, hne]

theorem stale_insert (sm : SlotMap α) (f : Key → α) (k : Key)
    (h : sm.staleKey k) : (sm.insertWithKey f).2.staleKey k := by
  obtain ⟨s, hs, hlt⟩ := h
  rcases hf : sm.freeList with _ | ⟨i, rest⟩
  · refine ⟨s, ?_, hlt⟩
    simp only [insertWithKey, hf]
    exact (nth_append_left _ _ _ (lt_of_nth_eq_some _ _ _ hs)).trans hs
  · rcases hs0 : nth sm.slots i with _ | s0
    · exact ⟨s, by simpa [insertWithKey, hf, hs0] using hs, hlt⟩
    · by_cases hik : i = k.idx
      · have hss : s0 = s := by
          have h0 := hs0
          rw [hik, hs] at h0
          exact (Option.some_inj.mp h0).symm
        refine ⟨⟨s0.gen, some (f ⟨i, s0.gen⟩)⟩, ?_, ?_⟩
        · simp only [insertWithKey, hf, hs0]
          rw [← hik, nth_setNth_self, hs0]
          rfl
        · show k.gen < s0.gen
          rw [hss]
          exact hlt
      · refine ⟨s, ?_, hlt⟩
        simp only [insertWithKey, hf, hs0]
        exact (nth_setNth_ne _ _ _ _ hik).trans hs

theorem stale_remove (sm : SlotMap α) (k0 k : Key)
    (h : sm.staleKey k) : (sm.removeKey k0).2.staleKey k := by
  obtain ⟨s, hs, hlt⟩ := h
  rcases hs0 : nth sm.slots k0.idx with _ | s0
  · exact ⟨s, by simpa [removeKey, hs0] using hs, hlt⟩
  · by_cases hc : (s0.gen == k0.gen && s0.val.isSome) = true
    · by_cases hik : k0.idx = k.idx
      · have hss : s0 = s := by
          have h0 := hs0
          rw [hik, hs] at h0
          exact (Option.some_inj.mp h0).symm
        refine ⟨⟨s0.gen + 1, none⟩, ?_, ?_⟩
        · simp only [removeKey, hs0, hc, if_true]
          rw [← hik, nth_setNth_self, hs0]
          rfl
        · show k.gen < s0.gen + 1
          rw [hss]
          omega
      · refine ⟨s, ?_, hlt⟩
        simp only [removeKey, hs0, hc, if_true]
        exact (nth_setNth_ne _ _ _ _ hik).trans hs
    · exact ⟨s, by simpa [removeKey, hs0, hc] using hs, hlt⟩

theorem remove_stale (sm : SlotMap α) (k : Key) (h : sm.containsKey k = true) :
    (sm.removeKey k).2.staleKey k := by
  rcases hs : nth sm.slots k.idx with _ | s
  · simp [containsKey, hs] at h
  · have hc : (s.gen == k.gen && s.val.isSome) = true := by
      simpa [containsKey, hs] using h
    have hgen : s.gen = k.gen := by
      have h0 := hc
      simp only [Bool.and_eq_true, beq_iff_eq] at h0
      exact h0.1
    refine ⟨⟨s.gen + 1, none⟩, ?_, ?_⟩
    · simp only [removeKey, hs, hc, if_true]
      rw [nth_setNth_self, hs]
      rfl
    · show k.gen < s.gen + 1
      omega

theorem insert_key_ne_stale (sm : SlotMap α) (f : Key → α) (k : Key)
    (h : sm.staleKey k) : (sm.insertWithKey f).1 ≠ k := by
  obtain ⟨s, hs, hlt⟩ := h
  have hidx : k.idx < sm.slots.length := lt_of_nth_eq_some _ _ _ hs
  rcases hf : sm.freeList with _ | ⟨i, rest⟩
  · simp only [insertWithKey, hf]
    intro hh
    rw [← hh] at hidx
    simp at hidx
  · rcases hs0 : nth sm.slots i with _ | s0
    · have hge : sm.slots.length ≤ i := (nth_eq_none_iff _ _).mp hs0
      simp only [insertWithKey, hf, hs0]
      intro hh
      rw [← hh] at hidx
      simp at hidx
      omega
    · simp only [insertWithKey, hf, hs0]
      intro hh
      by_cases hik : i = k.idx
      · have hss : s0 = s := by
          have h0 := hs0
          rw [hik, hs] at h0
          exact (Option.some_inj.mp h0).symm
        rw [← hh] at hlt
        simp [hss] at hlt
      · rw [← hh] at hik
        simp at hik

end SlotMap

theorem filterMapVal_nodup (l : List (Slot Key)) (n : Nat)
    (h : ∀ i s k, nth l i = some s → s.val = some k → k.idx = i + n) :
    (l.filterMap Slot.val).Nodup := by
  induction l generalizing n with
  | nil => simp
  | cons s l ih =>
    rcases hv : s.val with _ | k
    · rw [List.filterMap_cons_none hv]
      exact ih (n + 1) (fun i s' k' hi hv' => by
        have := h (i + 1) s' k' (by simpa [nth] using hi) hv'
        omega)
    · rw [List.filterMap_cons_some hv]
      refine List.nodup_cons.mpr ⟨?_, ih (n + 1) (fun i s' k' hi hv' => by
        have := h (i + 1) s' k' (by simpa [nth] using hi) hv'
        omega)⟩
      intro hmem
      rcases List.mem_filterMap.mp hmem with ⟨s', hs', hv'⟩
      rcases (mem_iff_nth _ _).mp hs' with ⟨i, hi⟩
      have h1 := h 0 s k rfl hv
      have h2 := h (i + 1) s' k (by simpa [nth] using hi) hv'
      omega

namespace SlotMap

theorem values_nodup (sm : SlotMap Key) (h : SelfKeys sm) : sm.values.Nodup := by
  apply filterMapVal_nodup sm.slots 0
  intro i s k hi hv
  rw [h i s k hi hv]
  rfl

theorem mem_values_iff (sm : SlotMap Key) (h : SelfKeys sm) (k : Key) :
    k ∈ sm.values ↔ sm.containsKey k = true := by
  constructor
  · intro hmem
    rcases List.mem_filterMap.mp hmem with ⟨s, hs, hval⟩
    rcases (mem_iff_nth _ _).mp hs with ⟨i, hi⟩
    have hk := h i s k hi hval
    subst hk
    simp [containsKey, hi, hval]
  · intro hcont
    rcases hs : nth sm.slots k.idx with _ | s
    · simp [containsKey, hs] at hcont
    · have hc : (s.gen == k.gen && s.val.isSome) = true := by
        simpa [containsKey, hs] using hcont
      simp only [Bool.and_eq_true, beq_iff_eq] at hc
      rcases hval : s.val with _ | k'
      · rw [hval] at hc
        simp at hc
      · have hk' := h k.idx s k' hs hval
        have hkk : k' = k := by
          rw [hk']
          exact Key.ext2 rfl hc.1
        exact List.mem_filterMap.mpr ⟨s, mem_of_nth_eq_some _ _ _ hs, by rw [hval, hkk]⟩

/-- The key just issued by an insert was not contained beforehand. -/
theorem contains_insert_key_before (sm : SlotMap α) (f : Key → α) (h : sm.Inv) :
    sm.containsKey (sm.insertWithKey f).1 = false := by
  rcases hf : sm.freeList with _ | ⟨i, rest⟩
  · simp [insertWithKey, hf, containsKey,
      nth_eq_none_of_le sm.slots sm.slots.length (Nat.le_refl _)]
  · rcases hs : nth sm.slots i with _ | s
    · simp [insertWithKey, hf, hs, containsKey]
    · obtain ⟨s', hs', hv'⟩ := h.2 i (by rw [hf]; exact List.mem_cons_self i rest)
      rw [hs] at hs'
      cases hs'
      simp [insertWithKey, hf, hs, containsKey, hv']

end SlotMap

/-! ### The reachable-world invariant -/

/-- The membership mask of an entity: its stored tag list, empty if the
entity is not tracked. -/
def maskOf {α : Type _} (w : World α) (e : Key) : List CompTypeId :=
  (alookup w.entityComponentMasks e).getD []

/-- Whether the typed storage for tag `t` currently holds an entry for `e`. -/
def storeHas {α : Type _} (w : World α) (t : CompTypeId) (e : Key) : Bool :=
  match alookup w.componentStorages t with
  | some s => (alookup s.entries e).isSome
  | none => false

/-- Invariant satisfied by every world reachable through the public
operations: well-formed entity allocator, duplicate-free maps, storages
typed by their own registration tag, masks tracking exactly the live
entities, and the mask/storage membership equivalence. -/
structure WInv {α : Type _} (w : World α) : Prop where
  smInv : w.entities.Inv
  selfKeys : w.entities.SelfKeys
  masksNodup : keysNodup w.entityComponentMasks
  storagesNodup : keysNodup w.componentStorages
  entriesNodup : ∀ p ∈ w.componentStorages, keysNodup (p.2).entries
  storeTy : ∀ p ∈ w.componentStorages, (p.2).ty = p.1
  masksLive : ∀ e, (alookup w.entityComponentMasks e).isSome = w.entities.containsKey e
  maskStore : ∀ e t, t ∈ maskOf w e ↔ storeHas w t e = true

theorem winv_new {α : Type _} : WInv (World.new : World α) := by
  refine ⟨SlotMap.inv_empty, SlotMap.selfKeys_empty, ?_, ?_, ?_, ?_, ?_, ?_⟩
  · simp [World.new, keysNodup]
  · simp [World.new, keysNodup]
  · simp [World.new]
  · simp [World.new]
  · intro e
    simp [World.new, alookup, SlotMap.containsKey, SlotMap.empty]
    cases e.idx <;> rfl
  · intro e t
    simp [World.new, maskOf, storeHas, alookup]

theorem storeHas_false_of_not_mask {α : Type _} (w : World α) (hw : WInv w)
    (e : Key) (t : CompTypeId) (h : t ∉ maskOf w e) : storeHas w t e = false := by
  cases hst : storeHas w t e with
  | false => rfl
  | true => exact absurd ((hw.maskStore e t).mpr hst) h

/-! ### Invariant preservation, operation by operation -/

theorem register_entities {α : Type _} (t : CompTypeId) (w : World α) :
    (registerComponent t w).entities = w.entities := by
  unfold registerComponent
  split <;> rfl

theorem register_masks {α : Type _} (t : CompTypeId) (w : World α) :
    (registerComponent t w).entityComponentMasks = w.entityComponentMasks := by
  unfold registerComponent
  split <;> rfl

theorem register_lookup {α : Type _} (t : CompTypeId) (w : World α) (hw : WInv w) :
    ∃ s, alookup (registerComponent t w).componentStorages t = some s ∧ s.ty = t := by
  by_cases hreg : (alookup w.componentStorages t).isSome = true
  · rcases hsome : alookup w.componentStorages t with _ | s
    · rw [hsome] at hreg
      simp at hreg
    · refine ⟨s, ?_, ?_⟩
      · simp [registerComponent, hreg, hsome]
      · exact hw.storeTy (t, s) (alookup_eq_some_mem _ _ _ hsome)
  · refine ⟨⟨t, []⟩, ?_, rfl⟩
    simp only [registerComponent, hreg, if_false, Bool.false_eq_true]
    exact alookup_ainsert_self _ _ _

theorem register_lookup_ne {α : Type _} (t t' : CompTypeId) (w : World α) (h : t' ≠ t) :
    alookup (registerComponent t w).componentStorages t' = alookup w.componentStorages t' := by
  unfold registerComponent
  split
  · rfl
  · exact alookup_ainsert_ne _ _ _ _ h

theorem winv_register {α : Type _} (t : CompTypeId) (w : World α) (hw : WInv w) :
    WInv (registerComponent t w) := by
  by_cases hreg : (alookup w.componentStorages t).isSome = true
  · simpa [registerComponent, hreg] using hw
  · have hnone : alookup w.componentStorages t = none := by
      cases h : alookup w.componentStorages t
      · rfl
      · rw [h] at hreg
        simp at hreg
    simp only [registerComponent, hreg, if_false, Bool.false_eq_true]
    refine ⟨hw.smInv, hw.selfKeys, hw.masksNodup, ?_, ?_, ?_, hw.masksLive, ?_⟩
    · exact keysNodup_ainsert _ _ _ hw.storagesNodup
    · intro p hp
      rcases mem_ainsert _ _ _ _ hp with rfl | hmem
      · simp [keysNodup]
      · exact hw.entriesNodup p hmem
    · intro p hp
      rcases mem_ainsert _ _ _ _ hp with rfl | hmem
      · rfl
      · exact hw.storeTy p hmem
    · intro e t'
      have hmask : maskOf { w with componentStorages := ainsert w.componentStorages t ⟨t, []⟩ } e
          = maskOf w e := rfl
      rw [hmask]
      by_cases ht : t' = t
      · subst ht
        have h1 : storeHas { w with componentStorages := ainsert w.componentStorages t' ⟨t', []⟩ } t' e = false := by
          simp [storeHas, alookup_ainsert_self, alookup]
        have h2 : storeHas w t' e = false := by
          simp [storeHas, hnone]
        rw [h1]
        have := hw.maskStore e t'
        rw [h2] at this
        simpa using this
      · have h1 : storeHas { w with componentStorages := ainsert w.componentStorages t ⟨t, []⟩ } t' e
            = storeHas w t' e := by
          simp [storeHas, alookup_ainsert_ne _ _ _ _ ht]
        rw [h1]
        exact hw.maskStore e t'

theorem winv_create {α : Type _} (w : World α) (hw : WInv w) :
    WInv (createEntity w).2 := by
  refine ⟨SlotMap.inv_insert _ _ hw.smInv, SlotMap.selfKeys_insert _ hw.selfKeys,
    keysNodup_ainsert _ _ _ hw.masksNodup, hw.storagesNodup, hw.entriesNodup,
    hw.storeTy, ?_, ?_⟩
  · intro e
    by_cases he : e = (w.entities.insertWithKey (fun id => id)).1
    · subst he
      show (alookup (ainsert w.entityComponentMasks _ []) _).isSome = _
      rw [alookup_ainsert_self]
      exact (SlotMap.containsKey_insert_self _ _ hw.smInv).symm
    · show (alookup (ainsert w.entityComponentMasks _ []) _).isSome
        = (w.entities.insertWithKey (fun id => id)).2.containsKey e
      rw [alookup_ainsert_ne _ _ _ _ he,
        SlotMap.containsKey_insert_ne _ _ _ he]
      exact hw.masksLive e
  · intro e t
    have hstores : storeHas (createEntity w).2 t e = storeHas w t e := rfl
    rw [hstores]
    by_cases he : e = (w.entities.insertWithKey (fun id => id)).1
    · subst he
      have hmask : maskOf (createEntity w).2 (w.entities.insertWithKey (fun id => id)).1 = [] := by
        show (alookup (ainsert w.entityComponentMasks _ []) _).getD [] = []
        rw [alookup_ainsert_self]
        rfl
      rw [hmask]
      have hold : alookup w.entityComponentMasks (w.entities.insertWithKey (fun id => id)).1 = none := by
        have h1 := hw.masksLive (w.entities.insertWithKey (fun id => id)).1
        rw [SlotMap.contains_insert_key_before _ _ hw.smInv] at h1
        cases h : alookup w.entityComponentMasks (w.entities.insertWithKey (fun id => id)).1
        · rfl
        · rw [h] at h1
          simp at h1
      have hsf : storeHas w t (w.entities.insertWithKey (fun id => id)).1 = false := by
        apply storeHas_false_of_not_mask w hw
        simp [maskOf, hold]
      rw [hsf]
      simp
    · have hmask : maskOf (createEntity w).2 e = maskOf w e := by
        show (alookup (ainsert w.entityComponentMasks _ []) _).getD [] = _
        rw [alookup_ainsert_ne _ _ _ _ he]
        rfl
      rw [hmask]
      exact hw.maskStore e t

theorem keys_map_value {κ : Type _} {β γ : Type _} (l : List (κ × β))
    (g : β → γ) :
    (l.map (fun p => (p.1, g p.2))).map Prod.fst = l.map Prod.fst := by
  rw [List.map_map]
  rfl

theorem keysNodup_map_value {κ : Type _} {β γ : Type _} [DecidableEq κ]
    (l : List (κ × β)) (g : β → γ) (h : keysNodup l) :
    keysNodup (l.map (fun p => (p.1, g p.2))) := by
  unfold keysNodup at h ⊢
  rw [keys_map_value]
  exact h

theorem removeEntity_not_live {α : Type _} (w : World α) (e : Key)
    (h : w.entities.containsKey e = false) :
    removeEntity w e = (.error (.entityNotFound e), w) := by
  simp [removeEntity, h]

theorem removeEntity_live {α : Type _} (w : World α) (e : Key)
    (h : w.entities.containsKey e = true) :
    removeEntity w e = (.ok (),
      { entities := (w.entities.removeKey e).2,
        componentStorages := w.componentStorages.map
          (fun p => (p.1, ⟨p.2.ty, aerase p.2.entries e⟩)),
        entityComponentMasks := aerase w.entityComponentMasks e }) := by
  simp [removeEntity, h]

theorem winv_removeE {α : Type _} (w : World α) (e : Key) (hw : WInv w) :
    WInv (removeEntity w e).2 := by
  by_cases hlive : w.entities.containsKey e = true
  · rw [removeEntity_live w e hlive]
    have hlookupS : ∀ t', alookup (w.componentStorages.map
        (fun p => ((p.1 : CompTypeId), (⟨p.2.ty, aerase p.2.entries e⟩ : TypedStorage α)))) t'
        = (alookup w.componentStorages t').map
            (fun s => ⟨s.ty, aerase s.entries e⟩) := by
      intro t'
      exact alookup_map_value w.componentStorages
        (fun s => (⟨s.ty, aerase s.entries e⟩ : TypedStorage α)) t'
    refine ⟨SlotMap.inv_remove _ _ hw.smInv, SlotMap.selfKeys_remove _ _ hw.selfKeys,
      keysNodup_aerase _ _ hw.masksNodup, ?_, ?_, ?_, ?_, ?_⟩
    · exact keysNodup_map_value w.componentStorages
        (fun s => (⟨s.ty, aerase s.entries e⟩ : TypedStorage α)) hw.storagesNodup
    · intro p hp
      rcases List.mem_map.mp hp with ⟨q, hq, rfl⟩
      exact keysNodup_aerase _ _ (hw.entriesNodup q hq)
    · intro p hp
      rcases List.mem_map.mp hp with ⟨q, hq, rfl⟩
      exact hw.storeTy q hq
    · intro e'
      by_cases he : e' = e
      · subst he
        show (alookup (aerase w.entityComponentMasks e') e').isSome
          = (w.entities.removeKey e').2.containsKey e'
        rw [alookup_aerase_self _ _ hw.masksNodup,
          SlotMap.containsKey_remove_self]
        rfl
      · show (alookup (aerase w.entityComponentMasks e) e').isSome
          = (w.entities.removeKey e).2.containsKey e'
        rw [alookup_aerase_ne _ _ _ he, SlotMap.containsKey_remove_ne _ _ _ he]
        exact hw.masksLive e'
    · intro e' t
      by_cases he : e' = e
      · subst he
        have hmask : (alookup (aerase w.entityComponentMasks e') e').getD [] = ([] : List CompTypeId) := by
          rw [alookup_aerase_self _ _ hw.masksNodup]
          rfl
        show t ∈ (alookup (aerase w.entityComponentMasks e') e').getD [] ↔ _
        rw [hmask]
        have hsf : (match alookup (w.componentStorages.map
            (fun p => ((p.1 : CompTypeId), (⟨p.2.ty, aerase p.2.entries e'⟩ : TypedStorage α)))) t with
          | some s => (alookup s.entries e').isSome
          | none => false) = false := by
          rw [hlookupS t]
          rcases hst : alookup w.componentStorages t with _ | s
          · rfl
          · show (alookup (aerase s.entries e') e').isSome = false
            rw [alookup_aerase_self _ _
              (hw.entriesNodup (t, s) (alookup_eq_some_mem _ _ _ hst))]
            rfl
        show _ ↔ (match alookup (w.componentStorages.map
            (fun p => ((p.1 : CompTypeId), (⟨p.2.ty, aerase p.2.entries e'⟩ : TypedStorage α)))) t with
          | some s => (alookup s.entries e').isSome
          | none => false) = true
        rw [hsf]
        simp
      · have hmask : (alookup (aerase w.entityComponentMasks e) e').getD []
            = maskOf w e' := by
          rw [alookup_aerase_ne _ _ _ he]
          rfl
        show t ∈ (alookup (aerase w.entityComponentMasks e) e').getD [] ↔ _
        rw [hmask]
        have hstore : (match alookup (w.componentStorages.map
            (fun p => ((p.1 : CompTypeId), (⟨p.2.ty, aerase p.2.entries e⟩ : TypedStorage α)))) t with
          | some s => (alookup s.entries e').isSome
          | none => false) = storeHas w t e' := by
          rw [hlookupS t]
          rcases hst : alookup w.componentStorages t with _ | s
          · simp [storeHas, hst]
          · show (alookup (aerase s.entries e) e').isSome = storeHas w t e'
            rw [alookup_aerase_ne _ _ _ he]
            simp [storeHas, hst]
        show _ ↔ (match alookup (w.componentStorages.map
            (fun p => ((p.1 : CompTypeId), (⟨p.2.ty, aerase p.2.entries e⟩ : TypedStorage α)))) t with
          | some s => (alookup s.entries e').isSome
          | none => false) = true
        rw [hstore]
        exact hw.maskStore e' t
  · have hlive' : w.entities.containsKey e = false := by
      cases h : w.entities.containsKey e
      · rfl
      · exact absurd h hlive
    rw [removeEntity_not_live w e hlive']
    exact hw

theorem list_contains_iff (l : List CompTypeId) (t : CompTypeId) :
    l.contains t = true ↔ t ∈ l := by
  induction l with
  | nil => simp
  | cons a l ih => by_cases ha : a = t <;> simp [ha, ih]

theorem addComponent_not_live {α : Type _} (w : World α) (t : CompTypeId)
    (e : Key) (v : α) (h : w.entities.containsKey e = false) :
    addComponent t e v w = (.error (.entityNotFound e), w) := by
  simp [addComponent, h]

theorem addComponent_eq {α : Type _} (w : World α) (t : CompTypeId) (e : Key) (v : α)
    (hlive : w.entities.containsKey e = true)
    (s : TypedStorage α)
    (hs : alookup (registerComponent t w).componentStorages t = some s)
    (hty : s.ty = t)
    (mask : List CompTypeId) (hm : alookup w.entityComponentMasks e = some mask) :
    addComponent t e v w = (.ok (),
      { entities := w.entities,
        componentStorages := ainsert (registerComponent t w).componentStorages t
          ⟨s.ty, ainsert s.entries e v⟩,
        entityComponentMasks := if mask.contains t then w.entityComponentMasks
          else ainsert w.entityComponentMasks e (mask ++ [t]) }) := by
  have hm1 : alookup (registerComponent t w).entityComponentMasks e = some mask := by
    rw [register_masks]
    exact hm
  simp only [addComponent, hlive, Bool.not_true, Bool.false_eq_true, if_false, hs,
    downcast, hty, if_pos, hm1, register_masks, register_entities]
  rw [hm]

theorem storeHas_mk {α : Type _} (ent : SlotMap Key)
    (cs : List (CompTypeId × TypedStorage α))
    (masks : List (Key × List CompTypeId)) (t : CompTypeId) (e : Key) :
    storeHas ⟨ent, cs, masks⟩ t e
      = (match alookup cs t with
         | some s => (alookup s.entries e).isSome
         | none => false) := rfl

theorem maskOf_mk {α : Type _} (ent : SlotMap Key)
    (cs : List (CompTypeId × TypedStorage α))
    (masks : List (Key × List CompTypeId)) (e : Key) :
    maskOf (⟨ent, cs, masks⟩ : World α) e = (alookup masks e).getD [] := rfl

theorem winv_addC {α : Type _} (w : World α) (t : CompTypeId) (e : Key) (v : α)
    (hw : WInv w) : WInv (addComponent t e v w).2 := by
  by_cases hlive : w.entities.containsKey e = true
  · obtain ⟨s, hs, hty⟩ := register_lookup t w hw
    have hw1 := winv_register t w hw
    obtain ⟨mask, hm⟩ : ∃ mask, alookup w.entityComponentMasks e = some mask := by
      have h1 := hw.masksLive e
      rw [hlive] at h1
      rcases h : alookup w.entityComponentMasks e with _ | m
      · rw [h] at h1
        simp at h1
      · exact ⟨m, rfl⟩
    rw [addComponent_eq w t e v hlive s hs hty mask hm]
    have hmem : (t, s) ∈ (registerComponent t w).componentStorages :=
      alookup_eq_some_mem _ _ _ hs
    have hmaskR : ∀ e', maskOf (registerComponent t w) e' = maskOf w e' := by
      intro e'
      unfold maskOf
      rw [register_masks]
    have hmaskE : maskOf w e = mask := by
      unfold maskOf
      rw [hm]
      rfl
    refine ⟨hw.smInv, hw.selfKeys, ?_, ?_, ?_, ?_, ?_, ?_⟩
    · show keysNodup (if mask.contains t = true then w.entityComponentMasks
        else ainsert w.entityComponentMasks e (mask ++ [t]))
      by_cases hc : mask.contains t = true
      · rw [if_pos hc]
        exact hw.masksNodup
      · rw [if_neg hc]
        exact keysNodup_ainsert _ _ _ hw.masksNodup
    · exact keysNodup_ainsert _ _ _ hw1.storagesNodup
    · intro p hp
      have hp' : p ∈ ainsert (registerComponent t w).componentStorages t
          ⟨s.ty, ainsert s.entries e v⟩ := hp
      rcases mem_ainsert _ _ _ _ hp' with rfl | hmem2
      · show keysNodup (ainsert s.entries e v)
        exact keysNodup_ainsert _ _ _ (hw1.entriesNodup (t, s) hmem)
      · exact hw1.entriesNodup p hmem2
    · intro p hp
      have hp' : p ∈ ainsert (registerComponent t w).componentStorages t
          ⟨s.ty, ainsert s.entries e v⟩ := hp
      rcases mem_ainsert _ _ _ _ hp' with rfl | hmem2
      · exact hty
      · exact hw1.storeTy p hmem2
    · intro e'
      show (alookup (if mask.contains t = true then w.entityComponentMasks
        else ainsert w.entityComponentMasks e (mask ++ [t])) e').isSome
        = w.entities.containsKey e'
      by_cases hc : mask.contains t = true
      · rw [if_pos hc]
        exact hw.masksLive e'
      · rw [if_neg hc]
        by_cases he : e' = e
        · subst he
          rw [alookup_ainsert_self]
          simp only [Option.isSome_some]
          exact hlive.symm
        · rw [alookup_ainsert_ne _ _ _ _ he]
          exact hw.masksLive e'
    · intro e' t'
      rw [maskOf_mk, storeHas_mk]
      have hLHS : (alookup (if mask.contains t = true then w.entityComponentMasks
          else ainsert w.entityComponentMasks e (mask ++ [t])) e').getD []
          = if e' = e then (if mask.contains t = true then mask else mask ++ [t])
            else maskOf w e' := by
        by_cases hc : mask.contains t = true
        · rw [if_pos hc]
          by_cases he : e' = e
          · rw [if_pos he, if_pos hc, he, hm]
            rfl
          · rw [if_neg he]
            rfl
        · rw [if_neg hc]
          by_cases he : e' = e
          · subst he
            rw [alookup_ainsert_self, if_pos rfl, if_neg hc]
            rfl
          · rw [alookup_ainsert_ne _ _ _ _ he, if_neg he]
            rfl
      rw [hLHS]
      by_cases ht : t' = t
      · subst ht
        have hRHS : (match alookup (ainsert (registerComponent t' w).componentStorages t'
              ⟨s.ty, ainsert s.entries e v⟩) t' with
            | some s0 => (alookup s0.entries e').isSome
            | none => false) = (alookup (ainsert s.entries e v) e').isSome := by
          rw [alookup_ainsert_self]
        rw [hRHS]
        by_cases he : e' = e
        · subst he
          rw [if_pos rfl, alookup_ainsert_self]
          simp only [Option.isSome_some]
          by_cases hc : mask.contains t' = true
          · rw [if_pos hc]
            simp [(list_contains_iff mask t').mp hc]
          · rw [if_neg hc]
            simp
        · rw [if_neg he, alookup_ainsert_ne _ _ _ _ he]
          have h1 := hw1.maskStore e' t'
          rw [hmaskR e'] at h1
          have h2 : storeHas (registerComponent t' w) t' e'
              = (alookup s.entries e').isSome := by
            unfold storeHas
            rw [hs]
          rw [h2] at h1
          exact h1
      · have hRHS : (match alookup (ainsert (registerComponent t w).componentStorages t
              ⟨s.ty, ainsert s.entries e v⟩) t' with
            | some s0 => (alookup s0.entries e').isSome
            | none => false)
            = storeHas (registerComponent t w) t' e' := by
          rw [alookup_ainsert_ne _ _ _ _ ht]
          rfl
        rw [hRHS]
        have h1 := hw1.maskStore e' t'
        rw [hmaskR e'] at h1
        by_cases he : e' = e
        · subst he
          rw [if_pos rfl]
          have hmm : (t' ∈ (if mask.contains t = true then mask else mask ++ [t]))
              ↔ t' ∈ mask := by
            by_cases hc : mask.contains t = true
            · rw [if_pos hc]
            · rw [if_neg hc]
              simp [List.mem_append, ht]
          rw [hmm]
          rw [hmaskE] at h1
          exact h1
        · rw [if_neg he]
          exact h1
  · have hlive' : w.entities.containsKey e = false := by
      cases h : w.entities.containsKey e
      · rfl
      · exact absurd h hlive
    rw [addComponent_not_live w t e v hlive']
    exact hw

theorem removeComponent_not_live {α : Type _} (w : World α) (t : CompTypeId)
    (e : Key) (h : w.entities.containsKey e = false) :
    removeComponent t e w = (.error (.entityNotFound e), w) := by
  simp [removeComponent, h]

theorem removeComponent_not_registered {α : Type _} (w : World α) (t : CompTypeId)
    (e : Key) (hlive : w.entities.containsKey e = true)
    (hnone : alookup w.componentStorages t = none) :
    removeComponent t e w = (.error (.componentNotRegistered (compTypeName t)), w) := by
  simp [removeComponent, hlive, hnone]

theorem removeComponent_eq {α : Type _} (w : World α) (t : CompTypeId) (e : Key)
    (hlive : w.entities.containsKey e = true)
    (s : TypedStorage α) (hs : alookup w.componentStorages t = some s)
    (hty : s.ty = t)
    (mask : List CompTypeId) (hm : alookup w.entityComponentMasks e = some mask) :
    removeComponent t e w = (.ok (alookup s.entries e),
      { entities := w.entities,
        componentStorages := ainsert w.componentStorages t ⟨s.ty, aerase s.entries e⟩,
        entityComponentMasks := ainsert w.entityComponentMasks e
          (mask.filter (fun x => x != t)) }) := by
  simp only [removeComponent, hlive, Bool.not_true, Bool.false_eq_true, if_false, hs,
    downcast, hty, if_pos, hm]

theorem winv_removeC {α : Type _} (w : World α) (t : CompTypeId) (e : Key)
    (hw : WInv w) : WInv (removeComponent t e w).2 := by
  by_cases hlive : w.entities.containsKey e = true
  · rcases hsl : alookup w.componentStorages t with _ | s
    · rw [removeComponent_not_registered w t e hlive hsl]
      exact hw
    · have hty : s.ty = t := hw.storeTy (t, s) (alookup_eq_some_mem _ _ _ hsl)
      obtain ⟨mask, hm⟩ : ∃ mask, alookup w.entityComponentMasks e = some mask := by
        have h1 := hw.masksLive e
        rw [hlive] at h1
        rcases h : alookup w.entityComponentMasks e with _ | m
        · rw [h] at h1
          simp at h1
        · exact ⟨m, rfl⟩
      rw [removeComponent_eq w t e hlive s hsl hty mask hm]
      have hmem : (t, s) ∈ w.componentStorages := alookup_eq_some_mem _ _ _ hsl
      have hmaskE : maskOf w e = mask := by
        unfold maskOf
        rw [hm]
        rfl
      refine ⟨hw.smInv, hw.selfKeys, ?_, ?_, ?_, ?_, ?_, ?_⟩
      · exact keysNodup_ainsert _ _ _ hw.masksNodup
      · exact keysNodup_ainsert _ _ _ hw.storagesNodup
      · intro p hp
        have hp' : p ∈ ainsert w.componentStorages t ⟨s.ty, aerase s.entries e⟩ := hp
        rcases mem_ainsert _ _ _ _ hp' with rfl | hmem2
        · show keysNodup (aerase s.entries e)
          exact keysNodup_aerase _ _ (hw.entriesNodup (t, s) hmem)
        · exact hw.entriesNodup p hmem2
      · intro p hp
        have hp' : p ∈ ainsert w.componentStorages t ⟨s.ty, aerase s.entries e⟩ := hp
        rcases mem_ainsert _ _ _ _ hp' with rfl | hmem2
        · exact hty
        · exact hw.storeTy p hmem2
      · intro e'
        show (alookup (ainsert w.entityComponentMasks e
          (mask.filter (fun x => x != t))) e').isSome = w.entities.containsKey e'
        by_cases he : e' = e
        · subst he
          rw [alookup_ainsert_self]
          simp only [Option.isSome_some]
          exact hlive.symm
        · rw [alookup_ainsert_ne _ _ _ _ he]
          exact hw.masksLive e'
      · intro e' t'
        rw [maskOf_mk, storeHas_mk]
        have hLHS : (alookup (ainsert w.entityComponentMasks e
            (mask.filter (fun x => x != t))) e').getD []
            = if e' = e then mask.filter (fun x => x != t) else maskOf w e' := by
          by_cases he : e' = e
          · subst he
            rw [alookup_ainsert_self, if_pos rfl]
            rfl
          · rw [alookup_ainsert_ne _ _ _ _ he, if_neg he]
            rfl
        rw [hLHS]
        by_cases ht : t' = t
        · subst ht
          have hRHS : (match alookup (ainsert w.componentStorages t'
                ⟨s.ty, aerase s.entries e⟩) t' with
              | some s0 => (alookup s0.entries e').isSome
              | none => false) = (alookup (aerase s.entries e) e').isSome := by
            rw [alookup_ainsert_self]
          rw [hRHS]
          by_cases he : e' = e
          · subst he
            rw [if_pos rfl,
              alookup_aerase_self _ _ (hw.entriesNodup (t', s) hmem)]
            simp
          · rw [if_neg he, alookup_aerase_ne _ _ _ he]
            have h1 := hw.maskStore e' t'
            have h2 : storeHas w t' e' = (alookup s.entries e').isSome := by
              unfold storeHas
              rw [hsl]
            rw [h2] at h1
            exact h1
        · have hRHS : (match alookup (ainsert w.componentStorages t
                ⟨s.ty, aerase s.entries e⟩) t' with
              | some s0 => (alookup s0.entries e').isSome
              | none => false) = storeHas w t' e' := by
            rw [alookup_ainsert_ne _ _ _ _ ht]
            rfl
          rw [hRHS]
          have h1 := hw.maskStore e' t'
          by_cases he : e' = e
          · subst he
            rw [if_pos rfl]
            have hmm : (t' ∈ mask.filter (fun x => x != t)) ↔ t' ∈ mask := by
              rw [List.mem_filter]
              simp [ht]
            rw [hmm]
            rw [hmaskE] at h1
            exact h1
          · rw [if_neg he]
            exact h1
  · have hlive' : w.entities.containsKey e = false := by
      cases h : w.entities.containsKey e
      · rfl
      · exact absurd h hlive
    rw [removeComponent_not_live w t e hlive']
    exact hw

theorem winv_applyOp {α : Type _} (w : World α) (op : Op α) (hw : WInv w) :
    WInv (applyOp w op) := by
  cases op with
  | create => exact winv_create w hw
  | removeE e => exact winv_removeE w e hw
  | register t => exact winv_register t w hw
  | addC t e v => exact winv_addC w t e v hw
  | removeC t e => exact winv_removeC w t e hw

theorem winv_runOpsFrom {α : Type _} (w : World α) (ops : List (Op α)) (hw : WInv w) :
    WInv (runOpsFrom w ops) := by
  induction ops generalizing w with
  | nil => exact hw
  | cons op ops ih => exact ih (applyOp w op) (winv_applyOp w op hw)

theorem winv_runOps {α : Type _} (ops : List (Op α)) : WInv (runOps ops) :=
  winv_runOpsFrom World.new ops winv_new

theorem bool_eq_false {b : Bool} (h : ¬ b = true) : b = false := by
  cases b
  · rfl
  · exact absurd rfl h

/-! ### Claim theorems -/

/-- C1: mask/storage equivalence invariant — in every world reachable from
the empty `World` by mutating operations, an entity's membership mask
contains a component tag exactly when that tag's typed store holds an entry
for the entity. -/
theorem C1_mask_storage_equivalence {α : Type _} (ops : List (Op α)) (e : Key)
    (t : CompTypeId) :
    t ∈ maskOf (runOps ops) e ↔ storeHas (runOps ops) t e = true :=
  (winv_runOps ops).maskStore e t

/-- C2: `remove_entity` on a live entity succeeds and atomically purges it —
afterwards the entity no longer exists, `has_component` is false for every
type, no typed store retains an entry for it, and its mask entry is gone. -/
theorem C2_remove_entity_purges {α : Type _} (ops : List (Op α)) (e : Key)
    (hlive : entityExists (runOps ops) e = true) :
    (removeEntity (runOps ops) e).1 = .ok () ∧
    entityExists (removeEntity (runOps ops) e).2 e = false ∧
    (∀ t, hasComponent t e (removeEntity (runOps ops) e).2 = false) ∧
    (∀ t, storeHas (removeEntity (runOps ops) e).2 t e = false) ∧
    alookup (removeEntity (runOps ops) e).2.entityComponentMasks e = none := by
  have hw' := winv_removeE (runOps ops) e (winv_runOps ops)
  have hgone : entityExists (removeEntity (runOps ops) e).2 e = false := by
    rw [removeEntity_live (runOps ops) e hlive]
    exact SlotMap.containsKey_remove_self _ _
  have hnomask : alookup (removeEntity (runOps ops) e).2.entityComponentMasks e
      = none := by
    have h1 := hw'.masksLive e
    have hgone' : (removeEntity (runOps ops) e).2.entities.containsKey e = false :=
      hgone
    rw [hgone'] at h1
    rcases h : alookup (removeEntity (runOps ops) e).2.entityComponentMasks e with _ | m
    · rfl
    · rw [h] at h1
      simp at h1
  refine ⟨?_, hgone, ?_, ?_, hnomask⟩
  · rw [removeEntity_live (runOps ops) e hlive]
  · intro t
    unfold hasComponent
    rw [hnomask]
    rfl
  · intro t
    apply storeHas_false_of_not_mask _ hw'
    unfold maskOf
    rw [hnomask]
    simp

theorem C2_remove_entity_purges_witness :
    entityExists (runOps ([Op.create, Op.addC 0 ⟨0, 0⟩ 7] : List (Op Nat))) ⟨0, 0⟩ = true ∧
    ((removeEntity (runOps ([Op.create, Op.addC 0 ⟨0, 0⟩ 7] : List (Op Nat))) ⟨0, 0⟩).1 = .ok () ∧
     entityExists (removeEntity (runOps ([Op.create, Op.addC 0 ⟨0, 0⟩ 7] : List (Op Nat))) ⟨0, 0⟩).2 ⟨0, 0⟩ = false ∧
     (∀ t, hasComponent t ⟨0, 0⟩ (removeEntity (runOps ([Op.create, Op.addC 0 ⟨0, 0⟩ 7] : List (Op Nat))) ⟨0, 0⟩).2 = false) ∧
     (∀ t, storeHas (removeEntity (runOps ([Op.create, Op.addC 0 ⟨0, 0⟩ 7] : List (Op Nat))) ⟨0, 0⟩).2 t ⟨0, 0⟩ = false) ∧
     alookup (removeEntity (runOps ([Op.create, Op.addC 0 ⟨0, 0⟩ 7] : List (Op Nat))) ⟨0, 0⟩).2.entityComponentMasks ⟨0, 0⟩ = none) :=
  ⟨by decide, C2_remove_entity_purges [Op.create, Op.addC 0 ⟨0, 0⟩ 7] ⟨0, 0⟩ (by decide)⟩

theorem getComponent_some_storage {α : Type _} (w : World α) (t : CompTypeId)
    (e : Key) (s : TypedStorage α)
    (hs : alookup w.componentStorages t = some s) (hty : s.ty = t) :
    getComponent t e w = alookup s.entries e := by
  unfold getComponent
  rw [hs]
  show (match downcast t s with
        | none => none
        | some s2 => alookup s2.entries e) = alookup s.entries e
  unfold downcast
  rw [if_pos hty]

theorem getComponentMut_some_storage {α : Type _} (w : World α) (t : CompTypeId)
    (e : Key) (s : TypedStorage α)
    (hs : alookup w.componentStorages t = some s) (hty : s.ty = t) :
    getComponentMut t e w = alookup s.entries e := by
  unfold getComponentMut
  rw [hs]
  show (match downcast t s with
        | none => none
        | some s2 => alookup s2.entries e) = alookup s.entries e
  unfold downcast
  rw [if_pos hty]

theorem getComponent_no_storage {α : Type _} (w : World α) (t : CompTypeId)
    (e : Key) (hs : alookup w.componentStorages t = none) :
    getComponent t e w = none := by
  unfold getComponent
  rw [hs]

theorem getComponentMut_no_storage {α : Type _} (w : World α) (t : CompTypeId)
    (e : Key) (hs : alookup w.componentStorages t = none) :
    getComponentMut t e w = none := by
  unfold getComponentMut
  rw [hs]

/-- C8: `add_component` can never fail with `ComponentNotRegistered` — on any
reachable world its result is `Ok` for a live entity and `EntityNotFound`
for a dead one; the storage-lookup and downcast error branches are
unreachable. -/
theorem C8_add_component_total {α : Type _} (ops : List (Op α)) (t : CompTypeId)
    (e : Key) (v : α) :
    (addComponent t e v (runOps ops)).1
      = if entityExists (runOps ops) e = true then .ok ()
        else .error (.entityNotFound e) := by
  by_cases hlive : entityExists (runOps ops) e = true
  · have hlive' : (runOps ops).entities.containsKey e = true := hlive
    obtain ⟨s, hs, hty⟩ := register_lookup t (runOps ops) (winv_runOps ops)
    obtain ⟨mask, hm⟩ : ∃ mask, alookup (runOps ops).entityComponentMasks e = some mask := by
      have h1 := (winv_runOps ops).masksLive e
      rw [hlive'] at h1
      rcases h : alookup (runOps ops).entityComponentMasks e with _ | m
      · rw [h] at h1
        simp at h1
      · exact ⟨m, rfl⟩
    rw [addComponent_eq (runOps ops) t e v hlive' s hs hty mask hm, if_pos hlive]
  · have hlive' : (runOps ops).entities.containsKey e = false := bool_eq_false hlive
    rw [addComponent_not_live (runOps ops) t e v hlive', if_neg hlive]

/-- C10: the read accessors are total on dead entities — for an entity that
does not exist, `get_component`, `get_component_mut` and `has_component`
report plain absence, never an error. -/
theorem C10_reads_total_on_dead {α : Type _} (ops : List (Op α)) (t : CompTypeId)
    (e : Key) (hdead : entityExists (runOps ops) e = false) :
    getComponent t e (runOps ops) = none ∧
    getComponentMut t e (runOps ops) = none ∧
    hasComponent t e (runOps ops) = false := by
  have hw := winv_runOps (α := α) ops
  have hnomask : alookup (runOps ops).entityComponentMasks e = none := by
    have h1 := hw.masksLive e
    have hdead' : (runOps ops).entities.containsKey e = false := hdead
    rw [hdead'] at h1
    rcases h : alookup (runOps ops).entityComponentMasks e with _ | m
    · rfl
    · rw [h] at h1
      simp at h1
  have hstore : ∀ s : TypedStorage α, alookup (runOps ops).componentStorages t = some s →
      alookup s.entries e = none := by
    intro s hs
    have hsf : storeHas (runOps ops) t e = false := by
      apply storeHas_false_of_not_mask _ hw
      unfold maskOf
      rw [hnomask]
      simp
    unfold storeHas at hsf
    rw [hs] at hsf
    have hsf' : (alookup s.entries e).isSome = false := hsf
    rcases h : alookup s.entries e with _ | v
    · rfl
    · rw [h] at hsf'
      simp at hsf'
  refine ⟨?_, ?_, ?_⟩
  · rcases hs : alookup (runOps ops).componentStorages t with _ | s
    · exact getComponent_no_storage _ _ _ hs
    · rw [getComponent_some_storage _ _ _ s hs
        (hw.storeTy (t, s) (alookup_eq_some_mem _ _ _ hs))]
      exact hstore s hs
  · rcases hs : alookup (runOps ops).componentStorages t with _ | s
    · exact getComponentMut_no_storage _ _ _ hs
    · rw [getComponentMut_some_storage _ _ _ s hs
        (hw.storeTy (t, s) (alookup_eq_some_mem _ _ _ hs))]
      exact hstore s hs
  · unfold hasComponent
    rw [hnomask]
    rfl

theorem C10_reads_total_on_dead_witness :
    entityExists (runOps ([] : List (Op Nat))) ⟨0, 0⟩ = false ∧
    (getComponent 0 ⟨0, 0⟩ (runOps ([] : List (Op Nat))) = none ∧
     getComponentMut 0 ⟨0, 0⟩ (runOps ([] : List (Op Nat))) = none ∧
     hasComponent 0 ⟨0, 0⟩ (runOps ([] : List (Op Nat))) = false) :=
  ⟨by decide, C10_reads_total_on_dead [] 0 ⟨0, 0⟩ (by decide)⟩

theorem hasComponent_iff_mem_maskOf {α : Type _} (w : World α) (t : CompTypeId)
    (e : Key) : hasComponent t e w = true ↔ t ∈ maskOf w e := by
  unfold hasComponent maskOf
  rcases h : alookup w.entityComponentMasks e with _ | m
  · simp
  · simp [list_contains_iff]

/-- C3 counterexample: a live entity with an unregistered component type —
`remove_component` answers `ComponentNotRegistered`, not "removed nothing". -/
theorem C3_counterexample :
    entityExists (runOps ([Op.create] : List (Op Nat))) ⟨0, 0⟩ = true ∧
    (removeComponent 0 ⟨0, 0⟩ (runOps ([Op.create] : List (Op Nat)))).1
      = .error (.componentNotRegistered "0") ∧
    (removeComponent 0 ⟨0, 0⟩ (runOps ([Op.create] : List (Op Nat)))).1
      ≠ .ok none := by
  have h1 : (removeComponent 0 ⟨0, 0⟩ (runOps ([Op.create] : List (Op Nat)))).1
      = .error (.componentNotRegistered "0") := rfl
  refine ⟨by decide, h1, ?_⟩
  rw [h1]
  intro h
  exact Except.noConfusion h

/-- C3 (amended): `remove_component` fails `EntityNotFound` exactly when the
entity is not live; on a live entity it fails `ComponentNotRegistered` when
the type has no storage, and otherwise succeeds, returning the removed value
if one existed, clearing the tag from the mask and dropping the entry. -/
theorem C3_remove_component_amended {α : Type _} (ops : List (Op α))
    (t : CompTypeId) (e : Key) :
    ((removeComponent t e (runOps ops)).1 = .error (.entityNotFound e)
      ↔ entityExists (runOps ops) e = false) ∧
    (entityExists (runOps ops) e = true →
      (removeComponent t e (runOps ops)).1
        = (match alookup (runOps ops).componentStorages t with
           | none => .error (.componentNotRegistered (compTypeName t))
           | some s => .ok (alookup s.entries e)) ∧
      hasComponent t e (removeComponent t e (runOps ops)).2 = false ∧
      storeHas (removeComponent t e (runOps ops)).2 t e = false) := by
  have hw := winv_runOps (α := α) ops
  by_cases hlive : entityExists (runOps ops) e = true
  · have hlive' : (runOps ops).entities.containsKey e = true := hlive
    rcases hsl : alookup (runOps ops).componentStorages t with _ | s
    · have heq := removeComponent_not_registered (runOps ops) t e hlive' hsl
      constructor
      · rw [heq]
        simp [hlive]
      · intro _
        rw [heq]
        refine ⟨rfl, ?_, ?_⟩
        · have hsf : storeHas (runOps ops) t e = false := by
            unfold storeHas
            rw [hsl]
          have hnotmem : ¬ t ∈ maskOf (runOps ops) e := fun hmem => by
            have h1 := (hw.maskStore e t).mp hmem
            rw [hsf] at h1
            exact Bool.noConfusion h1
          exact bool_eq_false
            (fun hc => hnotmem ((hasComponent_iff_mem_maskOf _ _ _).mp hc))
        · unfold storeHas
          rw [hsl]
    · have hty := hw.storeTy (t, s) (alookup_eq_some_mem _ _ _ hsl)
      obtain ⟨mask, hm⟩ : ∃ mask, alookup (runOps ops).entityComponentMasks e = some mask := by
        have h1 := hw.masksLive e
        rw [hlive'] at h1
        rcases h : alookup (runOps ops).entityComponentMasks e with _ | m
        · rw [h] at h1
          simp at h1
        · exact ⟨m, rfl⟩
      have heq := removeComponent_eq (runOps ops) t e hlive' s hsl hty mask hm
      constructor
      · rw [heq]
        simp [hlive]
      · intro _
        rw [heq]
        refine ⟨rfl, ?_, ?_⟩
        · have hnotmem : ¬ t ∈ mask.filter (fun x => x != t) := by
            intro hmem
            have h2 := (List.mem_filter.mp hmem).2
            simp at h2
          have hcont : (mask.filter (fun x => x != t)).contains t = false :=
            bool_eq_false (fun hc => hnotmem ((list_contains_iff _ _).mp hc))
          unfold hasComponent
          rw [alookup_ainsert_self]
          simp [hcont]
        · rw [storeHas_mk]
          have hR : (match alookup (ainsert (runOps ops).componentStorages t
                ⟨s.ty, aerase s.entries e⟩) t with
              | some s0 => (alookup s0.entries e).isSome
              | none => false) = (alookup (aerase s.entries e) e).isSome := by
            rw [alookup_ainsert_self]
          rw [hR, alookup_aerase_self _ _
            (hw.entriesNodup (t, s) (alookup_eq_some_mem _ _ _ hsl))]
          rfl
  · have heq := removeComponent_not_live (runOps ops) t e (bool_eq_false hlive)
    constructor
    · rw [heq]
      simp [bool_eq_false hlive]
    · intro hl
      exact absurd hl hlive

theorem C3_remove_component_amended_witness :
    entityExists (runOps ([Op.create, Op.addC 0 ⟨0, 0⟩ 5] : List (Op Nat))) ⟨0, 0⟩ = true ∧
    ((removeComponent 0 ⟨0, 0⟩ (runOps ([Op.create, Op.addC 0 ⟨0, 0⟩ 5] : List (Op Nat)))).1
        = .error (.entityNotFound ⟨0, 0⟩)
      ↔ entityExists (runOps ([Op.create, Op.addC 0 ⟨0, 0⟩ 5] : List (Op Nat))) ⟨0, 0⟩ = false) ∧
    ((removeComponent 0 ⟨0, 0⟩ (runOps ([Op.create, Op.addC 0 ⟨0, 0⟩ 5] : List (Op Nat)))).1
        = (match alookup (runOps ([Op.create, Op.addC 0 ⟨0, 0⟩ 5] : List (Op Nat))).componentStorages 0 with
           | none => .error (.componentNotRegistered (compTypeName 0))
           | some s => .ok (alookup s.entries ⟨0, 0⟩)) ∧
      hasComponent 0 ⟨0, 0⟩ (removeComponent 0 ⟨0, 0⟩ (runOps ([Op.create, Op.addC 0 ⟨0, 0⟩ 5] : List (Op Nat)))).2 = false ∧
      storeHas (removeComponent 0 ⟨0, 0⟩ (runOps ([Op.create, Op.addC 0 ⟨0, 0⟩ 5] : List (Op Nat)))).2 0 ⟨0, 0⟩ = false) :=
  ⟨by decide,
   (C3_remove_component_amended [Op.create, Op.addC 0 ⟨0, 0⟩ 5] 0 ⟨0, 0⟩).1,
   (C3_remove_component_amended [Op.create, Op.addC 0 ⟨0, 0⟩ 5] 0 ⟨0, 0⟩).2 (by decide)⟩

theorem addComponent_entities {α : Type _} (w : World α) (t : CompTypeId)
    (e : Key) (v : α) : (addComponent t e v w).2.entities = w.entities := by
  by_cases hlive : w.entities.containsKey e = true
  · rcases hs : alookup (registerComponent t w).componentStorages t with _ | s
    · simp only [addComponent, hlive, Bool.not_true, Bool.false_eq_true, if_false, hs]
      exact register_entities t w
    · by_cases hty : s.ty = t
      · simp only [addComponent, hlive, Bool.not_true, Bool.false_eq_true, if_false,
          hs, downcast, hty, if_pos]
        exact register_entities t w
      · have hd : downcast t s = none := by
          simp [downcast, hty]
        simp only [addComponent, hlive, Bool.not_true, Bool.false_eq_true, if_false,
          hs, hd]
        exact register_entities t w
  · rw [addComponent_not_live w t e v (bool_eq_false hlive)]

theorem removeComponent_entities {α : Type _} (w : World α) (t : CompTypeId)
    (e : Key) : (removeComponent t e w).2.entities = w.entities := by
  by_cases hlive : w.entities.containsKey e = true
  · rcases hs : alookup w.componentStorages t with _ | s
    · rw [removeComponent_not_registered w t e hlive hs]
    · by_cases hty : s.ty = t
      · simp only [removeComponent, hlive, Bool.not_true, Bool.false_eq_true, if_false,
          hs, downcast, hty, if_pos]
      · have hd : downcast t s = none := by
          simp [downcast, hty]
        simp only [removeComponent, hlive, Bool.not_true, Bool.false_eq_true, if_false,
          hs, hd]
  · rw [removeComponent_not_live w t e (bool_eq_false hlive)]

theorem stale_applyOp {α : Type _} (w : World α) (op : Op α) (e : Key)
    (h : w.entities.staleKey e) : (applyOp w op).entities.staleKey e := by
  cases op with
  | create => exact SlotMap.stale_insert _ _ _ h
  | removeE e' =>
    show (removeEntity w e').2.entities.staleKey e
    by_cases hlive : w.entities.containsKey e' = true
    · rw [removeEntity_live w e' hlive]
      exact SlotMap.stale_remove _ _ _ h
    · rw [removeEntity_not_live w e' (bool_eq_false hlive)]
      exact h
  | register t =>
    show (registerComponent t w).entities.staleKey e
    rw [register_entities]
    exact h
  | addC t e' v =>
    show (addComponent t e' v w).2.entities.staleKey e
    rw [addComponent_entities]
    exact h
  | removeC t e' =>
    show (removeComponent t e' w).2.entities.staleKey e
    rw [removeComponent_entities]
    exact h

theorem stale_runOpsFrom {α : Type _} (w : World α) (ops : List (Op α)) (e : Key)
    (h : w.entities.staleKey e) : (runOpsFrom w ops).entities.staleKey e := by
  induction ops generalizing w with
  | nil => exact h
  | cons op ops ih => exact ih (applyOp w op) (stale_applyOp w op e h)

/-- C5: stale-handle safety — once a live entity is removed, its handle never
denotes an entity again: in every subsequently reachable world it does not
exist, removing it again fails with `EntityNotFound`, and no later
`create_entity` ever returns a handle equal to it, even when the slot is
reused. -/
theorem C5_stale_handle_safety {α : Type _} (w : World α) (e : Key)
    (hlive : entityExists w e = true) :
    (removeEntity w e).1 = .ok () ∧
    ∀ ops : List (Op α),
      entityExists (runOpsFrom (removeEntity w e).2 ops) e = false ∧
      (removeEntity (runOpsFrom (removeEntity w e).2 ops) e).1
        = .error (.entityNotFound e) ∧
      (createEntity (runOpsFrom (removeEntity w e).2 ops)).1 ≠ e := by
  have hlive' : w.entities.containsKey e = true := hlive
  have hstale0 : (removeEntity w e).2.entities.staleKey e := by
    rw [removeEntity_live w e hlive']
    exact SlotMap.remove_stale _ _ hlive'
  refine ⟨by rw [removeEntity_live w e hlive'], ?_⟩
  intro ops
  have hstale := stale_runOpsFrom (removeEntity w e).2 ops e hstale0
  have hdead : (runOpsFrom (removeEntity w e).2 ops).entities.containsKey e = false :=
    SlotMap.stale_not_contains _ _ hstale
  refine ⟨hdead, ?_, ?_⟩
  · rw [removeEntity_not_live _ e hdead]
  · exact SlotMap.insert_key_ne_stale _ _ _ hstale

theorem C5_stale_handle_safety_witness :
    entityExists (runOps ([Op.create] : List (Op Nat))) ⟨0, 0⟩ = true ∧
    ((removeEntity (runOps ([Op.create] : List (Op Nat))) ⟨0, 0⟩).1 = .ok () ∧
     (entityExists (runOpsFrom (removeEntity (runOps ([Op.create] : List (Op Nat))) ⟨0, 0⟩).2 [Op.create]) ⟨0, 0⟩ = false ∧
      (removeEntity (runOpsFrom (removeEntity (runOps ([Op.create] : List (Op Nat))) ⟨0, 0⟩).2 [Op.create]) ⟨0, 0⟩).1
        = .error (.entityNotFound ⟨0, 0⟩) ∧
      (createEntity (runOpsFrom (removeEntity (runOps ([Op.create] : List (Op Nat))) ⟨0, 0⟩).2 [Op.create])).1 ≠ ⟨0, 0⟩)) :=
  ⟨by decide,
   (C5_stale_handle_safety (runOps ([Op.create] : List (Op Nat))) ⟨0, 0⟩ (by decide)).1,
   (C5_stale_handle_safety (runOps ([Op.create] : List (Op Nat))) ⟨0, 0⟩ (by decide)).2 [Op.create]⟩

theorem mem_addTag (mask : List CompTypeId) (t t' : CompTypeId) :
    (t' ∈ (if mask.contains t = true then mask else mask ++ [t]))
      ↔ (t' ∈ mask ∨ t' = t) := by
  by_cases hc : mask.contains t = true
  · rw [if_pos hc]
    constructor
    · exact Or.inl
    · rintro (h | rfl)
      · exact h
      · exact (list_contains_iff _ _).mp hc
  · rw [if_neg hc]
    simp [List.mem_append]

theorem addComponent_masks_other {α : Type _} (w : World α) (t : CompTypeId)
    (e : Key) (v : α) (e' : Key) (hw : WInv w) (h : e' ≠ e) :
    alookup (addComponent t e v w).2.entityComponentMasks e'
      = alookup w.entityComponentMasks e' := by
  by_cases hlive : w.entities.containsKey e = true
  · obtain ⟨s, hs, hty⟩ := register_lookup t w hw
    obtain ⟨mask, hm⟩ : ∃ mask, alookup w.entityComponentMasks e = some mask := by
      have h1 := hw.masksLive e
      rw [hlive] at h1
      rcases hx : alookup w.entityComponentMasks e with _ | m
      · rw [hx] at h1
        simp at h1
      · exact ⟨m, rfl⟩
    rw [addComponent_eq w t e v hlive s hs hty mask hm]
    show alookup (if mask.contains t = true then w.entityComponentMasks
      else ainsert w.entityComponentMasks e (mask ++ [t])) e' = _
    by_cases hc : mask.contains t = true
    · rw [if_pos hc]
    · rw [if_neg hc]
      exact alookup_ainsert_ne _ _ _ _ h
  · rw [addComponent_not_live w t e v (bool_eq_false hlive)]

theorem addComponent_masks_self {α : Type _} (w : World α) (t : CompTypeId)
    (e : Key) (v : α) (hw : WInv w) (hlive : w.entities.containsKey e = true)
    (mask : List CompTypeId) (hm : alookup w.entityComponentMasks e = some mask) :
    alookup (addComponent t e v w).2.entityComponentMasks e
      = some (if mask.contains t = true then mask else mask ++ [t]) := by
  obtain ⟨s, hs, hty⟩ := register_lookup t w hw
  rw [addComponent_eq w t e v hlive s hs hty mask hm]
  show alookup (if mask.contains t = true then w.entityComponentMasks
    else ainsert w.entityComponentMasks e (mask ++ [t])) e = _
  by_cases hc : mask.contains t = true
  · rw [if_pos hc, if_pos hc, hm]
  · rw [if_neg hc, if_neg hc]
    exact alookup_ainsert_self _ _ _

theorem query_mem_char {α : Type _} (w : World α)
    (hnd : keysNodup w.entityComponentMasks) (R : List CompTypeId) (e : Key) :
    e ∈ queryEntities R w
      ↔ ∃ m, alookup w.entityComponentMasks e = some m ∧ ∀ t ∈ R, t ∈ m := by
  unfold queryEntities
  constructor
  · intro h
    rcases List.mem_map.mp h with ⟨p, hp, hfst⟩
    rcases List.mem_filter.mp hp with ⟨hmem, hpred⟩
    refine ⟨p.2, ?_, ?_⟩
    · rw [← hfst]
      exact mem_alookup _ _ _ hnd hmem
    · intro t ht
      exact (list_contains_iff _ _).mp (List.all_eq_true.mp hpred t ht)
  · rintro ⟨m, hm, hall⟩
    apply List.mem_map.mpr
    refine ⟨(e, m), ?_, rfl⟩
    apply List.mem_filter.mpr
    refine ⟨alookup_eq_some_mem _ _ _ hm, ?_⟩
    apply List.all_eq_true.mpr
    intro t ht
    exact (list_contains_iff _ _).mpr (hall t ht)

/-- C6: query exactness — on every reachable world, `query_entities` returns
exactly the tracked entities whose mask is a superset of the required tags;
and the resulting entity set is unchanged when the same two components are
added to an entity in either order. -/
theorem C6_query_exactness {α : Type _} :
    (∀ (ops : List (Op α)) (R : List CompTypeId) (e : Key),
      e ∈ queryEntities R (runOps ops)
        ↔ ∃ m, alookup (runOps ops).entityComponentMasks e = some m
            ∧ ∀ t ∈ R, t ∈ m) ∧
    (∀ (ops : List (Op α)) (a b : CompTypeId) (va vb : α) (e : Key)
        (R : List CompTypeId) (e' : Key),
      e' ∈ queryEntities R (addComponent b e vb (addComponent a e va (runOps ops)).2).2
        ↔ e' ∈ queryEntities R (addComponent a e va (addComponent b e vb (runOps ops)).2).2) := by
  constructor
  · intro ops R e
    exact query_mem_char (runOps ops) (winv_runOps ops).masksNodup R e
  · intro ops a b va vb e R e'
    have hw := winv_runOps (α := α) ops
    by_cases hlive : (runOps ops).entities.containsKey e = true
    · have hwA := winv_addC (runOps ops) a e va hw
      have hwB := winv_addC (runOps ops) b e vb hw
      have hwAB := winv_addC _ b e vb hwA
      have hwBA := winv_addC _ a e va hwB
      have hliveA : (addComponent a e va (runOps ops)).2.entities.containsKey e = true := by
        rw [addComponent_entities]
        exact hlive
      have hliveB : (addComponent b e vb (runOps ops)).2.entities.containsKey e = true := by
        rw [addComponent_entities]
        exact hlive
      obtain ⟨mask, hm⟩ : ∃ mask, alookup (runOps ops).entityComponentMasks e = some mask := by
        have h1 := hw.masksLive e
        rw [hlive] at h1
        rcases hx : alookup (runOps ops).entityComponentMasks e with _ | m
        · rw [hx] at h1
          simp at h1
        · exact ⟨m, rfl⟩
      rw [query_mem_char _ hwAB.masksNodup, query_mem_char _ hwBA.masksNodup]
      by_cases he' : e' = e
      · subst he'
        have hmA := addComponent_masks_self (runOps ops) a e' va hw hlive mask hm
        have hmB := addComponent_masks_self (runOps ops) b e' vb hw hlive mask hm
        have hmAB := addComponent_masks_self _ b e' vb hwA hliveA _ hmA
        have hmBA := addComponent_masks_self _ a e' va hwB hliveB _ hmB
        rw [hmAB, hmBA]
        have htransAB : ∀ t', t' ∈ (if (if mask.contains a = true then mask
              else mask ++ [a]).contains b = true
            then (if mask.contains a = true then mask else mask ++ [a])
            else (if mask.contains a = true then mask else mask ++ [a]) ++ [b])
            ↔ ((t' ∈ mask ∨ t' = a) ∨ t' = b) := by
          intro t'
          rw [mem_addTag, mem_addTag]
        have htransBA : ∀ t', t' ∈ (if (if mask.contains b = true then mask
              else mask ++ [b]).contains a = true
            then (if mask.contains b = true then mask else mask ++ [b])
            else (if mask.contains b = true then mask else mask ++ [b]) ++ [a])
            ↔ ((t' ∈ mask ∨ t' = b) ∨ t' = a) := by
          intro t'
          rw [mem_addTag, mem_addTag]
        simp only [Option.some.injEq]
        constructor
        · rintro ⟨m, rfl, hall⟩
          refine ⟨_, rfl, ?_⟩
          intro t ht
          apply (htransBA t).mpr
          have := (htransAB t).mp (hall t ht)
          tauto
        · rintro ⟨m, rfl, hall⟩
          refine ⟨_, rfl, ?_⟩
          intro t ht
          apply (htransAB t).mpr
          have := (htransBA t).mp (hall t ht)
          tauto
      · have h1 : alookup (addComponent b e vb (addComponent a e va (runOps ops)).2).2.entityComponentMasks e'
            = alookup (runOps ops).entityComponentMasks e' := by
          rw [addComponent_masks_other _ b e vb e' hwA he',
            addComponent_masks_other _ a e va e' hw he']
        have h2 : alookup (addComponent a e va (addComponent b e vb (runOps ops)).2).2.entityComponentMasks e'
            = alookup (runOps ops).entityComponentMasks e' := by
          rw [addComponent_masks_other _ a e va e' hwB he',
            addComponent_masks_other _ b e vb e' hw he']
        rw [h1, h2]
    · have hdead := bool_eq_false hlive
      rw [addComponent_not_live (runOps ops) a e va hdead,
        addComponent_not_live (runOps ops) b e vb hdead]
      show e' ∈ queryEntities R (runOps ops)
        ↔ e' ∈ queryEntities R (addComponent a e va (runOps ops)).2
      rw [addComponent_not_live (runOps ops) a e va hdead]

/-! ### The system dispatcher (`src/ecs/src/system.rs`) -/

/-- A system's `run` method (`fn run(&mut self, world: &mut World,
delta_time: f32) -> EcsResult<()>`), embedded as a state transformer: given
the world and the elapsed time it returns the possibly mutated world and an
optional error; the system's own `&mut self` state is captured in the
closure. -/
def SysFun (σ : Type _) := σ → ℚ → σ × Option EcsError

/-- `SystemDispatcher::run_systems`: invoke each system in registration
order, one at a time; the `?` operator propagates the first error
immediately, and the world keeps whatever mutations have been made. -/
def runSystems {σ : Type _} (systems : List (SysFun σ)) (w : σ) (dt : ℚ) :
    σ × Option EcsError :=
  match systems with
  | [] => (w, none)
  | s :: rest =>
    match s w dt with
    | (w', none) => runSystems rest w' dt
    | (w', some err) => (w', some err)

/-- C4: dispatcher fail-fast order — if the systems registered before `s2`
all succeed, transforming the world to `w1`, and `s2` then fails with `err`
at world `w2`, the whole tick returns exactly `s2`'s error with `s2`'s world
(effects of the earlier systems kept, no rollback), no matter which systems
are registered after `s2` — their `run` is never invoked. -/
theorem C4_dispatcher_fail_fast {σ : Type _} (front : List (SysFun σ))
    (s2 : SysFun σ) (w w1 w2 : σ) (err : EcsError) (dt : ℚ)
    (h1 : runSystems front w dt = (w1, none))
    (h2 : s2 w1 dt = (w2, some err)) :
    ∀ rest : List (SysFun σ), runSystems (front ++ s2 :: rest) w dt = (w2, some err) := by
  intro rest
  induction front generalizing w with
  | nil =>
    have hw : w = w1 := congrArg Prod.fst h1
    rw [List.nil_append]
    show (match s2 w dt with
      | (w', none) => runSystems rest w' dt
      | (w', some e) => (w', some e)) = (w2, some err)
    rw [hw, h2]
  | cons s front ih =>
    rw [List.cons_append]
    show (match s w dt with
      | (w', none) => runSystems (front ++ s2 :: rest) w' dt
      | (w', some e) => (w', some e)) = (w2, some err)
    have h1' : (match s w dt with
      | (w', none) => runSystems front w' dt
      | (w', some e) => (w', some e)) = (w1, none) := h1
    rcases hs : s w dt with ⟨w', r⟩
    rw [hs] at h1'
    cases r with
    | none => exact ih w' h1'
    | some e =>
      exfalso
      have := congrArg Prod.snd h1'
      simp at this

def sysOk : SysFun Nat := fun n _ => (n + 1, none)

def sysBad : SysFun Nat := fun n _ => (n * 10, some (.systemError "boom"))

def sysAfter : SysFun Nat := fun n _ => (n + 100, none)

theorem C4_dispatcher_fail_fast_witness :
    runSystems [sysOk] 0 1 = (1, none) ∧
    sysBad 1 1 = (10, some (.systemError "boom")) ∧
    runSystems [sysOk, sysBad, sysAfter] 0 1 = (10, some (.systemError "boom")) :=
  ⟨rfl, rfl,
   C4_dispatcher_fail_fast [sysOk] sysBad 0 1 10 (.systemError "boom") 1 rfl rfl [sysAfter]⟩

/-! ### DebugSystem (`src/simulator/src/systems/mod.rs`) -/

/-- The private state of `DebugSystem`: its name, the print interval and the
elapsed-time accumulator (`f32`s embedded as rationals). -/
structure DebugSystem where
  name : String
  printInterval : ℚ
  elapsed : ℚ

/-- `DebugSystem::new(print_interval)`. -/
def DebugSystem.new (printInterval : ℚ) : DebugSystem :=
  ⟨"DebugSystem", printInterval, 0⟩

/-- The state evolution of `DebugSystem::run`: add `dt` to the accumulator;
when it reaches the interval, report (the printing reads the world but never
mutates it) and set the accumulator to `0.0`. -/
def DebugSystem.runStep (s : DebugSystem) (dt : ℚ) : DebugSystem :=
  let elapsed := s.elapsed + dt
  if s.printInterval ≤ elapsed then { s with elapsed := 0 }
  else { s with elapsed := elapsed }

/-- C9: the debug system discards the overshoot — with print interval `2`, a
single run with `dt = 3` crosses the threshold with accumulated time `3`,
and the code leaves the accumulator at `0`, not at the `3 - 2 = 1` that
overshoot retention (claimed by the spec and by the comment in the code
itself) would require. -/
theorem C9_debug_overshoot_discarded :
    ((DebugSystem.new 2).runStep 3).elapsed = 0 ∧
    (0 : ℚ) + 3 - 2 = 1 ∧ (0 : ℚ) ≠ 1 := by
  refine ⟨?_, by norm_num, by norm_num⟩
  show (if (DebugSystem.new 2).printInterval ≤ (DebugSystem.new 2).elapsed + (3 : ℚ)
      then { DebugSystem.new 2 with elapsed := (0 : ℚ) }
      else { DebugSystem.new 2 with elapsed := (DebugSystem.new 2).elapsed + (3 : ℚ) }).elapsed
    = (0 : ℚ)
  rw [if_pos (by norm_num [DebugSystem.new])]

/-! ### MovementSystem (`src/simulator/src/systems/mod.rs`) -/

/-- `Position` / `Velocity` component values: two `f32`s each, embedded as
rationals. -/
abbrev Vec2 := ℚ × ℚ

/-- The `TypeId` of the simulator's `Position` component. -/
def posTag : CompTypeId := 0

/-- The `TypeId` of the simulator's `Velocity` component. -/
def velTag : CompTypeId := 1

theorem writeComponent_entities {α : Type _} (w : World α) (t : CompTypeId)
    (e : Key) (v : α) : (writeComponent t e v w).entities = w.entities := by
  unfold writeComponent
  split <;> rfl

theorem writeComponent_masks {α : Type _} (w : World α) (t : CompTypeId)
    (e : Key) (v : α) :
    (writeComponent t e v w).entityComponentMasks = w.entityComponentMasks := by
  unfold writeComponent
  split <;> rfl

theorem writeComponent_lookup_self {α : Type _} (w : World α) (t : CompTypeId)
    (e : Key) (v : α) (s : TypedStorage α)
    (hs : alookup w.componentStorages t = some s) :
    alookup (writeComponent t e v w).componentStorages t
      = some ⟨s.ty, ainsert s.entries e v⟩ := by
  unfold writeComponent
  rw [hs]
  exact alookup_ainsert_self _ _ _

theorem writeComponent_lookup_ne {α : Type _} (w : World α) (t t' : CompTypeId)
    (e : Key) (v : α) (ht : t' ≠ t) :
    alookup (writeComponent t e v w).componentStorages t'
      = alookup w.componentStorages t' := by
  unfold writeComponent
  rcases hs : alookup w.componentStorages t with _ | s
  · rfl
  · exact alookup_ainsert_ne _ _ _ _ ht

theorem getComponent_congr_storages {α : Type _} (w1 w2 : World α)
    (t : CompTypeId) (e : Key)
    (h : alookup w1.componentStorages t = alookup w2.componentStorages t) :
    getComponent t e w1 = getComponent t e w2 := by
  unfold getComponent
  rw [h]

theorem getComponent_write_self {α : Type _} (w : World α) (t : CompTypeId)
    (e : Key) (v : α) (s : TypedStorage α)
    (hs : alookup w.componentStorages t = some s) (hty : s.ty = t) :
    getComponent t e (writeComponent t e v w) = some v := by
  rw [getComponent_some_storage (writeComponent t e v w) t e
    ⟨s.ty, ainsert s.entries e v⟩ (writeComponent_lookup_self w t e v s hs) hty]
  exact alookup_ainsert_self _ _ _

theorem getComponent_write_ne_t {α : Type _} (w : World α) (t t' : CompTypeId)
    (e e' : Key) (v : α) (ht : t' ≠ t) :
    getComponent t' e' (writeComponent t e v w) = getComponent t' e' w :=
  getComponent_congr_storages _ _ _ _ (writeComponent_lookup_ne w t t' e v ht)

theorem getComponent_write_ne_e {α : Type _} (w : World α) (t : CompTypeId)
    (e e' : Key) (v : α) (he : e' ≠ e) :
    getComponent t e' (writeComponent t e v w) = getComponent t e' w := by
  rcases hs : alookup w.componentStorages t with _ | s
  · have h0 : writeComponent t e v w = w := by
      unfold writeComponent
      rw [hs]
    rw [h0]
  · by_cases hty : s.ty = t
    · rw [getComponent_some_storage (writeComponent t e v w) t e'
        ⟨s.ty, ainsert s.entries e v⟩ (writeComponent_lookup_self w t e v s hs) hty,
        getComponent_some_storage w t e' s hs hty]
      exact alookup_ainsert_ne _ _ _ _ he
    · have h1 : getComponent t e' w = none := by
        unfold getComponent
        rw [hs]
        show (match downcast t s with
              | none => none
              | some s2 => alookup s2.entries e') = none
        unfold downcast
        rw [if_neg hty]
      have h2 : getComponent t e' (writeComponent t e v w) = none := by
        unfold getComponent
        rw [writeComponent_lookup_self w t e v s hs]
        show (match downcast t (⟨s.ty, ainsert s.entries e v⟩ : TypedStorage α) with
              | none => none
              | some s2 => alookup s2.entries e') = none
        unfold downcast
        rw [if_neg hty]
      rw [h1, h2]

theorem winv_write {α : Type _} (w : World α) (t : CompTypeId) (e : Key) (v : α)
    (hw : WInv w) (s : TypedStorage α)
    (hs : alookup w.componentStorages t = some s)
    (hentry : (alookup s.entries e).isSome = true) :
    WInv (writeComponent t e v w) := by
  have hmem : (t, s) ∈ w.componentStorages := alookup_eq_some_mem _ _ _ hs
  have heq : writeComponent t e v w
      = { w with componentStorages := ainsert w.componentStorages t ⟨s.ty, ainsert s.entries e v⟩ } := by
    unfold writeComponent
    rw [hs]
  rw [heq]
  refine ⟨hw.smInv, hw.selfKeys, hw.masksNodup, ?_, ?_, ?_, hw.masksLive, ?_⟩
  · exact keysNodup_ainsert _ _ _ hw.storagesNodup
  · intro p hp
    have hp' : p ∈ ainsert w.componentStorages t ⟨s.ty, ainsert s.entries e v⟩ := hp
    rcases mem_ainsert _ _ _ _ hp' with rfl | hmem2
    · show keysNodup (ainsert s.entries e v)
      exact keysNodup_ainsert _ _ _ (hw.entriesNodup (t, s) hmem)
    · exact hw.entriesNodup p hmem2
  · intro p hp
    have hp' : p ∈ ainsert w.componentStorages t ⟨s.ty, ainsert s.entries e v⟩ := hp
    rcases mem_ainsert _ _ _ _ hp' with rfl | hmem2
    · exact hw.storeTy (t, s) hmem
    · exact hw.storeTy p hmem2
  · intro e' t'
    rw [maskOf_mk, storeHas_mk]
    have hL : (alookup w.entityComponentMasks e').getD [] = maskOf w e' := rfl
    rw [hL]
    by_cases ht : t' = t
    · subst ht
      have hR : (match alookup (ainsert w.componentStorages t'
            ⟨s.ty, ainsert s.entries e v⟩) t' with
          | some s0 => (alookup s0.entries e').isSome
          | none => false) = (alookup (ainsert s.entries e v) e').isSome := by
        rw [alookup_ainsert_self]
      rw [hR]
      by_cases he : e' = e
      · subst he
        rw [alookup_ainsert_self]
        have hold : storeHas w t' e' = true := by
          unfold storeHas
          rw [hs]
          exact hentry
        simp only [Option.isSome_some]
        have h1 := (hw.maskStore e' t').mpr hold
        simp [h1, (hw.maskStore e' t').mpr hold]
      · rw [alookup_ainsert_ne _ _ _ _ he]
        have h1 := hw.maskStore e' t'
        have h2 : storeHas w t' e' = (alookup s.entries e').isSome := by
          unfold storeHas
          rw [hs]
        rw [h2] at h1
        exact h1
    · have hR : (match alookup (ainsert w.componentStorages t
            ⟨s.ty, ainsert s.entries e v⟩) t' with
          | some s0 => (alookup s0.entries e').isSome
          | none => false) = storeHas w t' e' := by
        rw [alookup_ainsert_ne _ _ _ _ ht]
        rfl
      rw [hR]
      exact hw.maskStore e' t'

/-- The body of `MovementSystem::run` for one entity: check both components
through the mask; read the velocity by value (`.unwrap()` — `none` embeds
the panic); update the position in place through `get_component_mut` (an
`if let`, so a missing position is skipped); entities without both
components are skipped entirely. -/
def movementVisit (dt : ℚ) (w : World Vec2) (e : Key) : Option (World Vec2) :=
  if hasComponent velTag e w && hasComponent posTag e w then
    match getComponent velTag e w with
    | none => none
    | some vel =>
      match getComponentMut posTag e w with
      | none => some w
      | some pos =>
          some (writeComponent posTag e (pos.1 + vel.1 * dt, pos.2 + vel.2 * dt) w)
  else some w

/-- The loop of `MovementSystem::run` over the collected entity list. -/
def movementGo (dt : ℚ) : List Key → World Vec2 → Option (World Vec2)
  | [], w => some w
  | e :: rest, w =>
    match movementVisit dt w e with
    | none => none
    | some w' => movementGo dt rest w'

/-- `MovementSystem::run`: collect all live entities first, then process
each one. -/
def movementRun (w : World Vec2) (dt : ℚ) : Option (World Vec2) :=
  movementGo dt (worldEntities w) w

/-- `n` consecutive ticks of the movement system. -/
def movementTicks : Nat → ℚ → World Vec2 → Option (World Vec2)
  | 0, _, w => some w
  | n + 1, dt, w =>
    match movementRun w dt with
    | none => none
    | some w' => movementTicks n dt w'

theorem hasComponent_congr_masks {α : Type _} (w1 w2 : World α)
    (t : CompTypeId) (e : Key)
    (h : w1.entityComponentMasks = w2.entityComponentMasks) :
    hasComponent t e w1 = hasComponent t e w2 := by
  unfold hasComponent
  rw [h]

theorem getComponent_some_storeHas {α : Type _} (w : World α) (t : CompTypeId)
    (e : Key) (x : α) (h : getComponent t e w = some x) :
    storeHas w t e = true := by
  rcases hs : alookup w.componentStorages t with _ | s
  · rw [getComponent_no_storage _ _ _ hs] at h
    exact Option.noConfusion h
  · by_cases hty : s.ty = t
    · rw [getComponent_some_storage w t e s hs hty] at h
      unfold storeHas
      rw [hs]
      show (alookup s.entries e).isSome = true
      rw [h]
      rfl
    · have hnone : getComponent t e w = none := by
        unfold getComponent
        rw [hs]
        show (match downcast t s with
              | none => none
              | some s2 => alookup s2.entries e) = none
        unfold downcast
        rw [if_neg hty]
      rw [hnone] at h
      exact Option.noConfusion h

theorem hasComponent_getComponent {α : Type _} (w : World α) (t : CompTypeId)
    (e : Key) (hw : WInv w) (h : hasComponent t e w = true) :
    ∃ x, getComponent t e w = some x := by
  have hst : storeHas w t e = true :=
    (hw.maskStore e t).mp ((hasComponent_iff_mem_maskOf w t e).mp h)
  unfold storeHas at hst
  rcases hs : alookup w.componentStorages t with _ | s
  · rw [hs] at hst
    exact Bool.noConfusion hst
  · rw [hs] at hst
    have hst' : (alookup s.entries e).isSome = true := hst
    rcases hx : alookup s.entries e with _ | x
    · rw [hx] at hst'
      simp at hst'
    · refine ⟨x, ?_⟩
      rw [getComponent_some_storage w t e s hs
        (hw.storeTy (t, s) (alookup_eq_some_mem _ _ _ hs))]
      exact hx

theorem movementVisit_spec (dt : ℚ) (w : World Vec2) (e : Key) (hw : WInv w) :
    ∃ w', movementVisit dt w e = some w' ∧ WInv w' ∧
      w'.entities = w.entities ∧
      w'.entityComponentMasks = w.entityComponentMasks ∧
      ((hasComponent velTag e w && hasComponent posTag e w) = false → w' = w) ∧
      ((hasComponent velTag e w && hasComponent posTag e w) = true →
        (∀ t' e', ¬(t' = posTag ∧ e' = e) →
          getComponent t' e' w' = getComponent t' e' w) ∧
        (∀ p v : Vec2, getComponent posTag e w = some p →
          getComponent velTag e w = some v →
          getComponent posTag e w' = some (p.1 + v.1 * dt, p.2 + v.2 * dt))) := by
  by_cases hb : (hasComponent velTag e w && hasComponent posTag e w) = true
  · have hboth := hb
    rw [Bool.and_eq_true] at hboth
    obtain ⟨hvel, hpos⟩ := hboth
    obtain ⟨v0, hv0⟩ := hasComponent_getComponent w velTag e hw hvel
    obtain ⟨p0, hp0⟩ := hasComponent_getComponent w posTag e hw hpos
    rcases hsp : alookup w.componentStorages posTag with _ | sp
    · rw [getComponent_no_storage _ _ _ hsp] at hp0
      exact Option.noConfusion hp0
    have htyp : sp.ty = posTag :=
      hw.storeTy (posTag, sp) (alookup_eq_some_mem _ _ _ hsp)
    have hentry : alookup sp.entries e = some p0 := by
      rw [getComponent_some_storage w posTag e sp hsp htyp] at hp0
      exact hp0
    have hmut : getComponentMut posTag e w = some p0 := by
      rw [getComponentMut_some_storage w posTag e sp hsp htyp]
      exact hentry
    refine ⟨writeComponent posTag e (p0.1 + v0.1 * dt, p0.2 + v0.2 * dt) w,
      ?_, ?_, writeComponent_entities _ _ _ _, writeComponent_masks _ _ _ _, ?_, ?_⟩
    · unfold movementVisit
      rw [if_pos hb, hv0, hmut]
    · exact winv_write w posTag e _ hw sp hsp (by rw [hentry]; rfl)
    · intro hfalse
      rw [hb] at hfalse
      exact Bool.noConfusion hfalse
    · intro _
      constructor
      · intro t' e' hne
        by_cases ht' : t' = posTag
        · subst ht'
          have he' : e' ≠ e := fun hh => hne ⟨rfl, hh⟩
          exact getComponent_write_ne_e w posTag e e' _ he'
        · exact getComponent_write_ne_t w posTag t' e e' _ ht'
      · intro p v hp hv
        have hpp : p0 = p := Option.some_inj.mp (hp0.symm.trans hp)
        have hvv : v0 = v := Option.some_inj.mp (hv0.symm.trans hv)
        subst hpp
        subst hvv
        exact getComponent_write_self w posTag e _ sp hsp htyp
  · refine ⟨w, ?_, hw, rfl, rfl, fun _ => rfl, fun htrue => absurd htrue hb⟩
    unfold movementVisit
    rw [if_neg hb]

theorem movementGo_spec (dt : ℚ) (l : List Key) (w : World Vec2) (hw : WInv w)
    (hnd : l.Nodup) :
    ∃ w', movementGo dt l w = some w' ∧ WInv w' ∧
      w'.entities = w.entities ∧
      w'.entityComponentMasks = w.entityComponentMasks ∧
      (∀ e t', e ∉ l → getComponent t' e w' = getComponent t' e w) ∧
      (∀ e, e ∈ l →
        ((hasComponent velTag e w && hasComponent posTag e w) = false →
          ∀ t', getComponent t' e w' = getComponent t' e w) ∧
        ((hasComponent velTag e w && hasComponent posTag e w) = true →
          (∀ t', t' ≠ posTag → getComponent t' e w' = getComponent t' e w) ∧
          (∀ p v : Vec2, getComponent posTag e w = some p →
            getComponent velTag e w = some v →
            getComponent posTag e w' = some (p.1 + v.1 * dt, p.2 + v.2 * dt)))) := by
  induction l generalizing w with
  | nil =>
    exact ⟨w, rfl, hw, rfl, rfl, fun e t' _ => rfl,
      fun e he => absurd he (List.not_mem_nil e)⟩
  | cons e0 l ih =>
    obtain ⟨hnot0, hndl⟩ := List.nodup_cons.mp hnd
    obtain ⟨w1, hvisit, hw1, hent1, hmask1, hfalse1, htrue1⟩ :=
      movementVisit_spec dt w e0 hw
    obtain ⟨w', hgo, hw', hent2, hmask2, hout2, hin2⟩ := ih w1 hw1 hndl
    have hgoal : movementGo dt (e0 :: l) w = some w' := by
      show (match movementVisit dt w e0 with
        | none => none
        | some w2 => movementGo dt l w2) = some w'
      rw [hvisit]
      exact hgo
    have hother : ∀ e t', e ≠ e0 → getComponent t' e w1 = getComponent t' e w := by
      intro e t' hne
      by_cases hb : (hasComponent velTag e0 w && hasComponent posTag e0 w) = true
      · exact (htrue1 hb).1 t' e (fun hc => hne hc.2)
      · rw [hfalse1 (bool_eq_false hb)]
    have hhasW1 : ∀ t e, hasComponent t e w1 = hasComponent t e w :=
      fun t e => hasComponent_congr_masks w1 w t e hmask1
    refine ⟨w', hgoal, hw', hent2.trans hent1, hmask2.trans hmask1, ?_, ?_⟩
    · intro e t' hnotl
      have hne0 : e ≠ e0 := fun hh => hnotl (hh ▸ List.mem_cons_self e0 l)
      have hnl : e ∉ l := fun hh => hnotl (List.mem_cons_of_mem e0 hh)
      rw [hout2 e t' hnl, hother e t' hne0]
    · intro e he
      rcases List.mem_cons.mp he with rfl | hel
      · constructor
        · intro hbf t'
          have hw1w : w1 = w := hfalse1 hbf
          subst hw1w
          exact hout2 e t' hnot0
        · intro hbt
          obtain ⟨hunch, hupd⟩ := htrue1 hbt
          constructor
          · intro t' ht'
            rw [hout2 e t' hnot0, hunch t' e (fun hc => ht' hc.1)]
          · intro p v hp hv
            rw [hout2 e posTag hnot0]
            exact hupd p v hp hv
      · have hne0 : e ≠ e0 := fun hh => hnot0 (hh ▸ hel)
        have hreads : ∀ t', getComponent t' e w1 = getComponent t' e w :=
          fun t' => hother e t' hne0
        have hhb : (hasComponent velTag e w1 && hasComponent posTag e w1)
            = (hasComponent velTag e w && hasComponent posTag e w) := by
          rw [hhasW1, hhasW1]
        obtain ⟨hf2, ht2⟩ := hin2 e hel
        constructor
        · intro hbf t'
          have h2 := hf2 (by rw [hhb]; exact hbf)
          rw [h2 t', hreads t']
        · intro hbt
          obtain ⟨hu2, hp2⟩ := ht2 (by rw [hhb]; exact hbt)
          constructor
          · intro t' ht'
            rw [hu2 t' ht', hreads t']
          · intro p v hp hv
            exact hp2 p v (by rw [hreads posTag]; exact hp)
              (by rw [hreads velTag]; exact hv)

theorem movementRun_spec (w : World Vec2) (dt : ℚ) (hw : WInv w) :
    ∃ w', movementRun w dt = some w' ∧ WInv w' ∧
      w'.entities = w.entities ∧
      w'.entityComponentMasks = w.entityComponentMasks ∧
      (∀ e t', (hasComponent velTag e w && hasComponent posTag e w) = false →
        getComponent t' e w' = getComponent t' e w) ∧
      (∀ e, (hasComponent velTag e w && hasComponent posTag e w) = true →
        (∀ t', t' ≠ posTag → getComponent t' e w' = getComponent t' e w) ∧
        (∀ p v : Vec2, getComponent posTag e w = some p →
          getComponent velTag e w = some v →
          getComponent posTag e w' = some (p.1 + v.1 * dt, p.2 + v.2 * dt))) := by
  obtain ⟨w', hgo, hw', hent, hmask, hout, hin⟩ :=
    movementGo_spec dt (worldEntities w) w hw (SlotMap.values_nodup _ hw.selfKeys)
  refine ⟨w', hgo, hw', hent, hmask, ?_, ?_⟩
  · intro e t' hbf
    by_cases hel : e ∈ worldEntities w
    · exact (hin e hel).1 hbf t'
    · exact hout e t' hel
  · intro e hbt
    have hboth := hbt
    rw [Bool.and_eq_true] at hboth
    have hvel := hboth.1
    have hlive : w.entities.containsKey e = true := by
      have h1 := hw.masksLive e
      unfold hasComponent at hvel
      rcases hm : alookup w.entityComponentMasks e with _ | m
      · rw [hm] at hvel
        exact Bool.noConfusion hvel
      · rw [hm] at h1
        simpa using h1.symm
    have hel : e ∈ worldEntities w :=
      (SlotMap.mem_values_iff _ hw.selfKeys e).mpr hlive
    exact (hin e hel).2 hbt

theorem movementTicks_spec (dt : ℚ) (n : Nat) (w : World Vec2) (hw : WInv w) :
    ∃ w2, movementTicks n dt w = some w2 ∧ WInv w2 ∧
      w2.entityComponentMasks = w.entityComponentMasks ∧
      (∀ e t', (hasComponent velTag e w && hasComponent posTag e w) = false →
        getComponent t' e w2 = getComponent t' e w) := by
  induction n generalizing w with
  | zero => exact ⟨w, rfl, hw, rfl, fun e t' _ => rfl⟩
  | succ n ih =>
    obtain ⟨w', hrun, hw', hent, hmask, hun, -⟩ := movementRun_spec w dt hw
    obtain ⟨w2, hticks, hw2, hmask2, hun2⟩ := ih w' hw'
    refine ⟨w2, ?_, hw2, hmask2.trans hmask, ?_⟩
    · show (match movementRun w dt with
        | none => none
        | some wx => movementTicks n dt wx) = some w2
      rw [hrun]
      exact hticks
    · intro e t' hbf
      have hb' : (hasComponent velTag e w' && hasComponent posTag e w') = false := by
        rw [hasComponent_congr_masks w' w velTag e hmask,
          hasComponent_congr_masks w' w posTag e hmask]
        exact hbf
      rw [hun2 e t' hb', hun e t' hbf]

/-- C7: one run of the movement system never panics on a reachable world;
it moves every live entity holding both a position and a velocity to
`position + velocity * dt` (Euler step) while leaving its velocity alone,
and an entity missing either component keeps every one of its components
unchanged after any number of ticks. -/
theorem C7_movement_system (ops : List (Op Vec2)) (dt : ℚ) :
    (movementRun (runOps ops) dt).isSome = true ∧
    (∀ (e : Key) (p v : Vec2), getComponent posTag e (runOps ops) = some p →
      getComponent velTag e (runOps ops) = some v →
      (movementRun (runOps ops) dt).map (fun w2 => getComponent posTag e w2)
        = some (some (p.1 + v.1 * dt, p.2 + v.2 * dt)) ∧
      (movementRun (runOps ops) dt).map (fun w2 => getComponent velTag e w2)
        = some (some v)) ∧
    (∀ (n : Nat) (e : Key) (t' : CompTypeId),
      (hasComponent velTag e (runOps ops) && hasComponent posTag e (runOps ops)) = false →
      (movementTicks n dt (runOps ops)).map (fun w2 => getComponent t' e w2)
        = some (getComponent t' e (runOps ops))) := by
  have hw := winv_runOps (α := Vec2) ops
  obtain ⟨w', hrun, hw', hent, hmask, hun, hupd⟩ := movementRun_spec (runOps ops) dt hw
  refine ⟨by rw [hrun]; rfl, ?_, ?_⟩
  · intro e p v hp hv
    have hbp : hasComponent posTag e (runOps ops) = true :=
      (hasComponent_iff_mem_maskOf _ _ _).mpr
        ((hw.maskStore e posTag).mpr (getComponent_some_storeHas _ _ _ _ hp))
    have hbv : hasComponent velTag e (runOps ops) = true :=
      (hasComponent_iff_mem_maskOf _ _ _).mpr
        ((hw.maskStore e velTag).mpr (getComponent_some_storeHas _ _ _ _ hv))
    have hbt : (hasComponent velTag e (runOps ops)
        && hasComponent posTag e (runOps ops)) = true := by
      rw [hbv, hbp]
      rfl
    obtain ⟨hunch, hpos⟩ := hupd e hbt
    constructor
    · rw [hrun]
      show some (getComponent posTag e w') = _
      rw [hpos p v hp hv]
    · rw [hrun]
      show some (getComponent velTag e w') = _
      rw [hunch velTag (by decide), hv]
  · intro n e t' hbf
    obtain ⟨w2, hticks, -, -, hun2⟩ := movementTicks_spec dt n (runOps ops) hw
    rw [hticks]
    show some (getComponent t' e w2) = _
    rw [hun2 e t' hbf]

def c7ops : List (Op Vec2) :=
  [Op.create, Op.addC posTag ⟨0, 0⟩ (0, 0), Op.addC velTag ⟨0, 0⟩ (10, 5),
   Op.create, Op.addC posTag ⟨1, 0⟩ (3, 4)]

theorem C7_movement_system_witness :
    (getComponent posTag ⟨0, 0⟩ (runOps c7ops) = some ((0 : ℚ), (0 : ℚ)) ∧
     getComponent velTag ⟨0, 0⟩ (runOps c7ops) = some ((10 : ℚ), (5 : ℚ)) ∧
     (hasComponent velTag ⟨1, 0⟩ (runOps c7ops)
       && hasComponent posTag ⟨1, 0⟩ (runOps c7ops)) = false) ∧
    (movementRun (runOps c7ops) 1).isSome = true ∧
    ((movementRun (runOps c7ops) 1).map (fun w2 => getComponent posTag ⟨0, 0⟩ w2)
      = some (some (((0 : ℚ), (0 : ℚ)).1 + ((10 : ℚ), (5 : ℚ)).1 * 1,
                    ((0 : ℚ), (0 : ℚ)).2 + ((10 : ℚ), (5 : ℚ)).2 * 1)) ∧
     (movementRun (runOps c7ops) 1).map (fun w2 => getComponent velTag ⟨0, 0⟩ w2)
      = some (some ((10 : ℚ), (5 : ℚ)))) ∧
    (movementTicks 3 1 (runOps c7ops)).map (fun w2 => getComponent posTag ⟨1, 0⟩ w2)
      = some (getComponent posTag ⟨1, 0⟩ (runOps c7ops)) :=
  ⟨⟨by decide, by decide, by decide⟩,
   (C7_movement_system c7ops 1).1,
   (C7_movement_system c7ops 1).2.1 ⟨0, 0⟩ ((0 : ℚ), (0 : ℚ)) ((10 : ℚ), (5 : ℚ))
     (by decide) (by decide),
   (C7_movement_system c7ops 1).2.2 3 ⟨1, 0⟩ posTag (by decide)⟩
